import Mathlib

/-!
Shallow embedding of the MLBAggregator statistics engine
(`src/stats_calculator.py` and the innings parser of `src/mlb_api_client.py`).

Modelling conventions:
* Python numbers: `int` is `ℤ`, `float` is `ℚ` (exact rational idealization of
  IEEE doubles; IEEE specials such as inf/nan are outside the model).
* A Python dict field that may be absent is an `Option`; `d.get(k, v)` is
  `(field).getD v`.
* Python's `round(x, n)` (banker's rounding to `n` decimal places) is
  `roundTo n` below, on exact rationals.
* Code that can raise (`int(...)`, `float(...)` on bad input) lives in
  `Except String`; an uncaught Python exception is `Except.error`.
-/

/-- Model of the Python values that can sit in a box-score field. -/
inductive PyVal where
  | pyInt (n : ℤ)
  | pyFloat (q : ℚ)
  | pyStr (s : String)
  | pyNone
  deriving DecidableEq, Repr

/-- Strip leading and trailing whitespace (Python `str.strip()` as performed
by `int`/`float` on string arguments). -/
def trimChars (l : List Char) : List Char :=
  ((l.dropWhile Char.isWhitespace).reverse.dropWhile Char.isWhitespace).reverse

/-- An optional leading sign; returns (negative?, remaining characters). -/
def parseSign : List Char → Bool × List Char
  | '-' :: rest => (true, rest)
  | '+' :: rest => (false, rest)
  | l => (false, l)

/-- Nonempty and all ASCII digits (Python `str.isdigit` on the inputs that
occur here). -/
def allDigits (l : List Char) : Bool :=
  !l.isEmpty && l.all Char.isDigit

/-- Numeric value of a digit string. -/
def digitsVal (l : List Char) : ℕ :=
  l.foldl (fun n c => 10 * n + (c.toNat - 48)) 0

/-- Split a character list at every separator recognized by `p`
(Python `str.split(sep)`). -/
def splitOnCharP (p : Char → Bool) : List Char → List (List Char)
  | [] => [[]]
  | c :: rest =>
    let r := splitOnCharP p rest
    if p c then [] :: r
    else
      match r with
      | [] => [[c]]
      | h :: t => (c :: h) :: t

/-- Python `int(s)` on a string: optional surrounding whitespace, optional
sign, then decimal digits; anything else raises `ValueError` (`none`). -/
def parseIntChars (l : List Char) : Option ℤ :=
  let t := trimChars l
  let (neg, ds) := parseSign t
  if allDigits ds then
    some (if neg then -(digitsVal ds : ℤ) else (digitsVal ds : ℤ))
  else none

/-- Mantissa of a Python float literal: digits with at most one dot, at least
one digit overall. -/
def parseMantissa (m : List Char) : Option ℚ :=
  match splitOnCharP (fun c => c = '.') m with
  | [ds] => if allDigits ds then some (digitsVal ds : ℚ) else none
  | [ip, fp] =>
    if (ip.all Char.isDigit && fp.all Char.isDigit && (!ip.isEmpty || !fp.isEmpty)) then
      some ((digitsVal ip : ℚ) + (digitsVal fp : ℚ) / (10 : ℚ) ^ fp.length)
    else none
  | _ => none

/-- Python `float(s)` on a string: optional whitespace and sign, a decimal
mantissa, and an optional `e`/`E` exponent; anything else raises
`ValueError` (`none`).  The IEEE special spellings (`inf`, `nan`) have no
rational counterpart and are outside the model. -/
def parseFloatChars (l : List Char) : Option ℚ :=
  let t := trimChars l
  let (neg, r) := parseSign t
  let mag : Option ℚ :=
    match splitOnCharP (fun c => c = 'e' || c = 'E') r with
    | [m] => parseMantissa m
    | [m, e] =>
      match parseMantissa m with
      | none => none
      | some mv =>
        let (eneg, eds) := parseSign e
        if allDigits eds then
          some (mv * (10 : ℚ) ^ (if eneg then -(digitsVal eds : ℤ) else (digitsVal eds : ℤ)))
        else none
    | _ => none
  mag.map (fun q => if neg then -q else q)

/-- Truncation toward zero, Python `int(float)`. -/
def ratTrunc (q : ℚ) : ℤ :=
  if 0 ≤ q then q.floor else -((-q).floor)

/-- Python `int(v)` on a stored field value. -/
def pyIntE : PyVal → Except String ℤ
  | .pyInt n => .ok n
  | .pyFloat q => .ok (ratTrunc q)
  | .pyStr s =>
    match parseIntChars s.toList with
    | some n => .ok n
    | none => .error ("invalid literal for int() with base 10: " ++ s)
  | .pyNone => .error "int() argument must be a string or a number, not NoneType"

/-- Python `float(v)` on a stored field value. -/
def pyFloatE : PyVal → Except String ℚ
  | .pyInt n => .ok (n : ℚ)
  | .pyFloat q => .ok q
  | .pyStr s =>
    match parseFloatChars s.toList with
    | some q => .ok q
    | none => .error ("could not convert string to float: " ++ s)
  | .pyNone => .error "float() argument must be a string or a number, not NoneType"

/-- Nearest integer, ties to the even neighbour (Python's rounding mode). -/
def roundHalfEven (q : ℚ) : ℤ :=
  let f := q.floor
  let r := q - (f : ℚ)
  if r < 1 / 2 then f
  else if 1 / 2 < r then f + 1
  else if f % 2 = 0 then f else f + 1

/-- Python `round(q, n)` on the exact-rational model of floats. -/
def roundTo (n : ℕ) (q : ℚ) : ℚ :=
  (roundHalfEven (q * (10 : ℚ) ^ n) : ℚ) / (10 : ℚ) ^ n

/-- `parse_innings` of `src/mlb_api_client.py` (lines 194-218), embedded on
the string and missing-field inputs the claims quantify over.  `none` models
the call-site default `player_stats.get('ip', 0)`, whose value `0` is falsy
and takes the same early `return 0.0` branch as the empty string.  (A truthy
non-string argument would first pass through `str()`; no such input arises in
the claims.) -/
def parse_innings : Option String → ℚ
  | none => 0
  | some s =>
    if s = "" then 0
    else
      let cs := s.toList
      if cs.contains '.' then
        match splitOnCharP (fun c => c = '.') cs with
        | [whole, fraction] =>
          match (if whole.isEmpty then some 0 else parseIntChars whole) with
          | none => 0
          | some w =>
            let fd : ℚ :=
              if fraction = ['1'] then 1 / 3
              else if fraction = ['2'] then 2 / 3
              else if allDigits fraction then (digitsVal fraction : ℚ) / 3
              else 0
            (w : ℚ) + fd
        | _ => 0
      else
        match parseFloatChars cs with
        | some q => q
        | none => 0

/-! ## Data model: stored game records (`src/stats_calculator.py` input)

A persisted game is a JSON-ish dict; the aggregator reads each field with
`dict.get(key, default)`.  Fields the aggregator never reads (`date`, ids,
`order`, `position`, `sub`, `notes`, ...) are omitted.  A field of type
`Option X` is absent when `none`; a present field may hold any `PyVal`. -/

/-- One batting box-score row as stored (fields read by
`_process_game_batting_stats`). -/
structure BattingLine where
  player_id : Option String := none
  name : Option String := none
  at_bats : Option PyVal := none
  hits : Option PyVal := none
  runs : Option PyVal := none
  rbis : Option PyVal := none
  doubles : Option PyVal := none
  triples : Option PyVal := none
  home_runs : Option PyVal := none
  walks : Option PyVal := none
  strikeouts : Option PyVal := none
  deriving DecidableEq, Repr

/-- One pitching box-score row as stored (fields read by
`_process_game_pitching_stats`). -/
structure PitchingLine where
  player_id : Option String := none
  name : Option String := none
  wins : Option PyVal := none
  losses : Option PyVal := none
  saves : Option PyVal := none
  innings_pitched : Option PyVal := none
  hits_allowed : Option PyVal := none
  runs_allowed : Option PyVal := none
  earned_runs : Option PyVal := none
  walks_allowed : Option PyVal := none
  strikeouts : Option PyVal := none
  home_runs_allowed : Option PyVal := none
  deriving DecidableEq, Repr

/-- A stored game record (fields read by `StatsCalculator`). -/
structure GameRecord where
  home_team : Option String := none
  away_team : Option String := none
  home_score : Option PyVal := none
  away_score : Option PyVal := none
  home_team_batting : Option (List BattingLine) := none
  away_team_batting : Option (List BattingLine) := none
  home_team_pitching : Option (List PitchingLine) := none
  away_team_pitching : Option (List PitchingLine) := none
  deriving DecidableEq, Repr

/-! ## Insertion-ordered maps

Python's `defaultdict` preserves insertion order; we model it as an
association list.  `batting_stats[player_id]` reads the entry (or the
default), and writing the mutated record back is `dset` (replace in place,
or append on first encounter). -/

/-- Lookup in an insertion-ordered map. -/
def dget {α : Type} : List (String × α) → String → Option α
  | [], _ => none
  | (k', v) :: rest, k => if k' = k then some v else dget rest k

/-- Write-back: replace the entry in place, or append a new one. -/
def dset {α : Type} : List (String × α) → String → α → List (String × α)
  | [], k, v => [(k, v)]
  | (k', v') :: rest, k, v => if k' = k then (k, v) :: rest else (k', v') :: dset rest k v

/-! ## Accumulator records (the `defaultdict` default lambdas,
`src/stats_calculator.py` lines 11-46) -/

/-- Per-player batting accumulator and result record. -/
structure BatAcc where
  player_name : String
  team : String
  games : ℤ
  at_bats : ℤ
  hits : ℤ
  runs : ℤ
  rbis : ℤ
  doubles : ℤ
  triples : ℤ
  home_runs : ℤ
  walks : ℤ
  strikeouts : ℤ
  batting_average : ℚ
  on_base_percentage : ℚ
  slugging_percentage : ℚ
  ops : ℚ
  deriving DecidableEq, Repr

/-- The zeroed batting record (lines 11-28). -/
def batInit : BatAcc :=
  { player_name := "", team := "", games := 0, at_bats := 0, hits := 0, runs := 0,
    rbis := 0, doubles := 0, triples := 0, home_runs := 0, walks := 0, strikeouts := 0,
    batting_average := 0, on_base_percentage := 0, slugging_percentage := 0, ops := 0 }

/-- Per-player pitching accumulator and result record. -/
structure PitAcc where
  player_name : String
  team : String
  games : ℤ
  wins : ℤ
  losses : ℤ
  saves : ℤ
  innings_pitched : ℚ
  hits_allowed : ℤ
  runs_allowed : ℤ
  earned_runs : ℤ
  walks_allowed : ℤ
  strikeouts : ℤ
  home_runs_allowed : ℤ
  era : ℚ
  whip : ℚ
  deriving DecidableEq, Repr

/-- The zeroed pitching record (lines 30-46). -/
def pitInit : PitAcc :=
  { player_name := "", team := "", games := 0, wins := 0, losses := 0, saves := 0,
    innings_pitched := 0, hits_allowed := 0, runs_allowed := 0, earned_runs := 0,
    walks_allowed := 0, strikeouts := 0, home_runs_allowed := 0, era := 0, whip := 0 }

/-- Key resolution for a batting line (line 64):
`player.get('player_id', f"unknown_{player.get('name', 'unnamed')}")`.
The f-string default is used only when the `player_id` key is absent. -/
def resolveKeyBat (l : BattingLine) : String :=
  l.player_id.getD ("unknown_" ++ l.name.getD "unnamed")

/-- Key resolution for a pitching line (line 108), same expression. -/
def resolveKeyPit (l : PitchingLine) : String :=
  l.player_id.getD ("unknown_" ++ l.name.getD "unnamed")

/-- The `int(player.get(field, 0))` coercions of lines 72-80, in source
order; the first present non-numeric value raises (errors), exactly as the
first failing `int(...)` does in Python.  Returns the nine batting
contributions (at_bats, hits, runs, rbis, doubles, triples, home_runs,
walks, strikeouts). -/
def batNums (l : BattingLine) :
    Except String (ℤ × ℤ × ℤ × ℤ × ℤ × ℤ × ℤ × ℤ × ℤ) := do
  let ab ← pyIntE (l.at_bats.getD (.pyInt 0))
  let h ← pyIntE (l.hits.getD (.pyInt 0))
  let r ← pyIntE (l.runs.getD (.pyInt 0))
  let rb ← pyIntE (l.rbis.getD (.pyInt 0))
  let d ← pyIntE (l.doubles.getD (.pyInt 0))
  let t ← pyIntE (l.triples.getD (.pyInt 0))
  let hr ← pyIntE (l.home_runs.getD (.pyInt 0))
  let w ← pyIntE (l.walks.getD (.pyInt 0))
  let so ← pyIntE (l.strikeouts.getD (.pyInt 0))
  pure (ab, h, r, rb, d, t, hr, w, so)

/-- Everything one batting line writes into its accumulator entry: the
resolved key, the overwritten name and team (lines 64, 67-68), and the nine
numeric contributions (lines 72-80). -/
structure CBat where
  key : String
  player_name : String
  team : String
  at_bats : ℤ
  hits : ℤ
  runs : ℤ
  rbis : ℤ
  doubles : ℤ
  triples : ℤ
  home_runs : ℤ
  walks : ℤ
  strikeouts : ℤ
  deriving DecidableEq, Repr

/-- Package one batting line's writes. -/
def mkCBat (team : String) (l : BattingLine) :
    ℤ × ℤ × ℤ × ℤ × ℤ × ℤ × ℤ × ℤ × ℤ → CBat
  | (ab, h, r, rb, d, t, hr, w, so) =>
    { key := resolveKeyBat l, player_name := l.name.getD "Unknown", team := team,
      at_bats := ab, hits := h, runs := r, rbis := rb, doubles := d, triples := t,
      home_runs := hr, walks := w, strikeouts := so }

/-- Evaluate one batting line: the coercions of lines 72-80 together with the
key/name/team resolution of lines 64, 67-68. -/
def convertBat (team : String) (l : BattingLine) : Except String CBat :=
  (batNums l).map (mkCBat team l)

/-- Apply one line's writes to its accumulator entry (lines 67-80): overwrite
name and team, increment `games`, add every counting stat. -/
def applyCBat (a : BatAcc) (c : CBat) : BatAcc :=
  { a with
    player_name := c.player_name
    team := c.team
    games := a.games + 1
    at_bats := a.at_bats + c.at_bats
    hits := a.hits + c.hits
    runs := a.runs + c.runs
    rbis := a.rbis + c.rbis
    doubles := a.doubles + c.doubles
    triples := a.triples + c.triples
    home_runs := a.home_runs + c.home_runs
    walks := a.walks + c.walks
    strikeouts := a.strikeouts + c.strikeouts }

/-- The pure part of one batting-loop iteration: fetch the entry at the
line's key (creating the zeroed default on first encounter, as the
`defaultdict` does), mutate it, write it back. -/
def batFoldStep (m : List (String × BatAcc)) (c : CBat) : List (String × BatAcc) :=
  dset m c.key (applyCBat ((dget m c.key).getD batInit) c)

/-- One iteration of the batting loop body (lines 63-80). -/
def processBatLine (team : String) (m : List (String × BatAcc)) (l : BattingLine) :
    Except String (List (String × BatAcc)) := do
  let c ← convertBat team l
  pure (batFoldStep m c)

/-- The batting loop over one side's line list. -/
def processBatLines (team : String) : List BattingLine → List (String × BatAcc) →
    Except String (List (String × BatAcc))
  | [], m => .ok m
  | l :: rest, m => do processBatLines team rest (← processBatLine team m l)

/-- The numeric coercions of lines 116-125, in source order: nine
`int(...)` fields and the `float(...)` innings value.  Returns
(wins, losses, saves, innings_pitched, hits_allowed, runs_allowed,
earned_runs, walks_allowed, strikeouts, home_runs_allowed). -/
def pitNums (l : PitchingLine) :
    Except String (ℤ × ℤ × ℤ × ℚ × ℤ × ℤ × ℤ × ℤ × ℤ × ℤ) := do
  let w ← pyIntE (l.wins.getD (.pyInt 0))
  let lo ← pyIntE (l.losses.getD (.pyInt 0))
  let sv ← pyIntE (l.saves.getD (.pyInt 0))
  let ip ← pyFloatE (l.innings_pitched.getD (.pyInt 0))
  let ha ← pyIntE (l.hits_allowed.getD (.pyInt 0))
  let ra ← pyIntE (l.runs_allowed.getD (.pyInt 0))
  let er ← pyIntE (l.earned_runs.getD (.pyInt 0))
  let wa ← pyIntE (l.walks_allowed.getD (.pyInt 0))
  let so ← pyIntE (l.strikeouts.getD (.pyInt 0))
  let hra ← pyIntE (l.home_runs_allowed.getD (.pyInt 0))
  pure (w, lo, sv, ip, ha, ra, er, wa, so, hra)

/-- Everything one pitching line writes into its accumulator entry. -/
structure CPit where
  key : String
  player_name : String
  team : String
  wins : ℤ
  losses : ℤ
  saves : ℤ
  innings_pitched : ℚ
  hits_allowed : ℤ
  runs_allowed : ℤ
  earned_runs : ℤ
  walks_allowed : ℤ
  strikeouts : ℤ
  home_runs_allowed : ℤ
  deriving DecidableEq, Repr

/-- Package one pitching line's writes. -/
def mkCPit (team : String) (l : PitchingLine) :
    ℤ × ℤ × ℤ × ℚ × ℤ × ℤ × ℤ × ℤ × ℤ × ℤ → CPit
  | (w, lo, sv, ip, ha, ra, er, wa, so, hra) =>
    { key := resolveKeyPit l, player_name := l.name.getD "Unknown", team := team,
      wins := w, losses := lo, saves := sv, innings_pitched := ip, hits_allowed := ha,
      runs_allowed := ra, earned_runs := er, walks_allowed := wa, strikeouts := so,
      home_runs_allowed := hra }

/-- Evaluate one pitching line (lines 108, 111-112, 116-125). -/
def convertPit (team : String) (l : PitchingLine) : Except String CPit :=
  (pitNums l).map (mkCPit team l)

/-- Apply one pitching line's writes to its accumulator entry
(lines 111-125); `innings_pitched` accumulates by (rational-model) float
addition, the rest by integer addition. -/
def applyCPit (a : PitAcc) (c : CPit) : PitAcc :=
  { a with
    player_name := c.player_name
    team := c.team
    games := a.games + 1
    wins := a.wins + c.wins
    losses := a.losses + c.losses
    saves := a.saves + c.saves
    innings_pitched := a.innings_pitched + c.innings_pitched
    hits_allowed := a.hits_allowed + c.hits_allowed
    runs_allowed := a.runs_allowed + c.runs_allowed
    earned_runs := a.earned_runs + c.earned_runs
    walks_allowed := a.walks_allowed + c.walks_allowed
    strikeouts := a.strikeouts + c.strikeouts
    home_runs_allowed := a.home_runs_allowed + c.home_runs_allowed }

/-- The pure part of one pitching-loop iteration. -/
def pitFoldStep (m : List (String × PitAcc)) (c : CPit) : List (String × PitAcc) :=
  dset m c.key (applyCPit ((dget m c.key).getD pitInit) c)

/-- One iteration of the pitching loop body (lines 107-125). -/
def processPitLine (team : String) (m : List (String × PitAcc)) (l : PitchingLine) :
    Except String (List (String × PitAcc)) := do
  let c ← convertPit team l
  pure (pitFoldStep m c)

/-- The pitching loop over one side's line list. -/
def processPitLines (team : String) : List PitchingLine → List (String × PitAcc) →
    Except String (List (String × PitAcc))
  | [], m => .ok m
  | l :: rest, m => do processPitLines team rest (← processPitLine team m l)

/-- `_process_game_batting_stats` (lines 59-101): home side then away side. -/
def _process_game_batting_stats (g : GameRecord) (m : List (String × BatAcc)) :
    Except String (List (String × BatAcc)) := do
  let m₁ ← processBatLines (g.home_team.getD "Unknown") (g.home_team_batting.getD []) m
  processBatLines (g.away_team.getD "Unknown") (g.away_team_batting.getD []) m₁

/-- `_process_game_pitching_stats` (lines 103-147): home side then away side. -/
def _process_game_pitching_stats (g : GameRecord) (m : List (String × PitAcc)) :
    Except String (List (String × PitAcc)) := do
  let m₁ ← processPitLines (g.home_team.getD "Unknown") (g.home_team_pitching.getD []) m
  processPitLines (g.away_team.getD "Unknown") (g.away_team_pitching.getD []) m₁

/-- The `for game in games` loop of `calculate_aggregate_stats`
(lines 49-51): per game, batting stats then pitching stats. -/
def processAllGames : List GameRecord → List (String × BatAcc) → List (String × PitAcc) →
    Except String (List (String × BatAcc) × List (String × PitAcc))
  | [], bm, pm => .ok (bm, pm)
  | g :: rest, bm, pm => do
    let bm' ← _process_game_batting_stats g bm
    let pm' ← _process_game_pitching_stats g pm
    processAllGames rest bm' pm'

/-- The per-player derived-statistics pass of `_calculate_batting_averages`
(lines 153-171), mutating one record: guarded batting average, on-base
percentage, slugging percentage, then OPS as the (rounded) sum of the two
already-rounded percentages. -/
def computeBatDerived (s : BatAcc) : BatAcc :=
  let s := if s.at_bats > 0 then
      { s with batting_average := roundTo 3 ((s.hits : ℚ) / (s.at_bats : ℚ)) }
    else s
  let pa := s.at_bats + s.walks
  let s := if pa > 0 then
      { s with on_base_percentage := roundTo 3 (((s.hits + s.walks : ℤ) : ℚ) / (pa : ℚ)) }
    else s
  let s := if s.at_bats > 0 then
      let total_bases := s.hits - s.doubles - s.triples - s.home_runs +
        s.doubles * 2 + s.triples * 3 + s.home_runs * 4
      { s with slugging_percentage := roundTo 3 ((total_bases : ℚ) / (s.at_bats : ℚ)) }
    else s
  { s with ops := roundTo 3 (s.on_base_percentage + s.slugging_percentage) }

/-- `_calculate_batting_averages` (lines 149-175): finalize every entry in
insertion order. -/
def _calculate_batting_averages (m : List (String × BatAcc)) : List BatAcc :=
  m.map (fun kv => computeBatDerived kv.2)

/-- The per-player derived-statistics pass of `_calculate_pitching_averages`
(lines 181-188): guarded ERA and WHIP. -/
def computePitDerived (s : PitAcc) : PitAcc :=
  let s := if s.innings_pitched > 0 then
      { s with era := roundTo 2 (((s.earned_runs * 9 : ℤ) : ℚ) / s.innings_pitched) }
    else s
  let s := if s.innings_pitched > 0 then
      { s with whip := roundTo 2 (((s.hits_allowed + s.walks_allowed : ℤ) : ℚ) / s.innings_pitched) }
    else s
  s

/-- `_calculate_pitching_averages` (lines 177-192). -/
def _calculate_pitching_averages (m : List (String × PitAcc)) : List PitAcc :=
  m.map (fun kv => computePitDerived kv.2)

/-- `calculate_aggregate_stats` (lines 9-57): fold every game into the two
accumulator maps, then emit the finalized records in insertion order.  An
uncaught exception from a malformed numeric field is `Except.error`. -/
def calculate_aggregate_stats (games : List GameRecord) :
    Except String (List BatAcc × List PitAcc) := do
  let (bm, pm) ← processAllGames games [] []
  pure (_calculate_batting_averages bm, _calculate_pitching_averages pm)

/-! ## `get_team_summary` (lines 194-214) -/

/-- Per-team win/loss record (the `defaultdict` default of line 196). -/
structure TeamRec where
  wins : ℤ
  losses : ℤ
  games_seen : ℤ
  deriving DecidableEq, Repr

/-- The zeroed team record. -/
def teamInit : TeamRec := { wins := 0, losses := 0, games_seen := 0 }

/-- Read-modify-write of one `team_records[team]` entry. -/
def dupd (m : List (String × TeamRec)) (k : String) (f : TeamRec → TeamRec) :
    List (String × TeamRec) :=
  dset m k (f ((dget m k).getD teamInit))

/-- The loop body of `get_team_summary` (lines 199-212). -/
def teamStep (m : List (String × TeamRec)) (g : GameRecord) :
    Except String (List (String × TeamRec)) := do
  let home := g.home_team.getD "Unknown"
  let away := g.away_team.getD "Unknown"
  let hs ← pyIntE (g.home_score.getD (.pyInt 0))
  let aw ← pyIntE (g.away_score.getD (.pyInt 0))
  let m := dupd m home (fun r => { r with games_seen := r.games_seen + 1 })
  let m := dupd m away (fun r => { r with games_seen := r.games_seen + 1 })
  let m :=
    if hs > aw then
      dupd (dupd m home (fun r => { r with wins := r.wins + 1 }))
        away (fun r => { r with losses := r.losses + 1 })
    else if aw > hs then
      dupd (dupd m away (fun r => { r with wins := r.wins + 1 }))
        home (fun r => { r with losses := r.losses + 1 })
    else m
  pure m

/-- The `for game in games` loop of `get_team_summary`. -/
def teamFold : List GameRecord → List (String × TeamRec) →
    Except String (List (String × TeamRec))
  | [], m => .ok m
  | g :: rest, m => do teamFold rest (← teamStep m g)

/-- `get_team_summary` (lines 194-214). -/
def get_team_summary (games : List GameRecord) : Except String (List (String × TeamRec)) :=
  teamFold games []

/-! ## Specification-side views

The folds above interleave fallible coercions with map updates.  For the
proofs we relate them to a two-stage view: first convert every line (in
processing order), then run a pure fold over the conversions.  The
definitions below are that view; the staging lemmas further down prove the
equivalence. -/

/-- The batting lines of one game in processing order, each annotated with
the team name `_process_game_batting_stats` associates with its side (home
lines first, then away lines). -/
def gameBatLines (g : GameRecord) : List (String × BattingLine) :=
  (g.home_team_batting.getD []).map (fun l => (g.home_team.getD "Unknown", l)) ++
  (g.away_team_batting.getD []).map (fun l => (g.away_team.getD "Unknown", l))

/-- The pitching lines of one game in processing order. -/
def gamePitLines (g : GameRecord) : List (String × PitchingLine) :=
  (g.home_team_pitching.getD []).map (fun l => (g.home_team.getD "Unknown", l)) ++
  (g.away_team_pitching.getD []).map (fun l => (g.away_team.getD "Unknown", l))

/-- All batting lines of a game sequence in processing order. -/
def battingLinesOf (games : List GameRecord) : List (String × BattingLine) :=
  games.flatMap gameBatLines

/-- All pitching lines of a game sequence in processing order. -/
def pitchingLinesOf (games : List GameRecord) : List (String × PitchingLine) :=
  games.flatMap gamePitLines

/-- Convert a list of annotated batting lines, stopping at the first
malformed one. -/
def convertBatAll : List (String × BattingLine) → Except String (List CBat)
  | [] => .ok []
  | tl :: rest => do
    let c ← convertBat tl.1 tl.2
    let cs ← convertBatAll rest
    pure (c :: cs)

/-- Convert a list of annotated pitching lines. -/
def convertPitAll : List (String × PitchingLine) → Except String (List CPit)
  | [] => .ok []
  | tl :: rest => do
    let c ← convertPit tl.1 tl.2
    let cs ← convertPitAll rest
    pure (c :: cs)

/-- Pure accumulation of converted batting lines. -/
def pureBatFold (m : List (String × BatAcc)) (cs : List CBat) : List (String × BatAcc) :=
  cs.foldl batFoldStep m

/-- Pure accumulation of converted pitching lines. -/
def purePitFold (m : List (String × PitAcc)) (cs : List CPit) : List (String × PitAcc) :=
  cs.foldl pitFoldStep m

/-- Placeholder contribution (never reached on the `.ok` path). -/
def cbatDefault : CBat :=
  { key := "", player_name := "", team := "", at_bats := 0, hits := 0, runs := 0,
    rbis := 0, doubles := 0, triples := 0, home_runs := 0, walks := 0, strikeouts := 0 }

/-- Placeholder contribution (never reached on the `.ok` path). -/
def cpitDefault : CPit :=
  { key := "", player_name := "", team := "", wins := 0, losses := 0, saves := 0,
    innings_pitched := 0, hits_allowed := 0, runs_allowed := 0, earned_runs := 0,
    walks_allowed := 0, strikeouts := 0, home_runs_allowed := 0 }

/-- The conversion as a total function; agrees with `convertBat` whenever
the line is well formed. -/
def convertBatD (tl : String × BattingLine) : CBat :=
  match convertBat tl.1 tl.2 with
  | .ok c => c
  | .error _ => cbatDefault

/-- The conversion as a total function; agrees with `convertPit` whenever
the line is well formed. -/
def convertPitD (tl : String × PitchingLine) : CPit :=
  match convertPit tl.1 tl.2 with
  | .ok c => c
  | .error _ => cpitDefault

/-- Does this `Except` hold a value? -/
def exOk {α : Type} : Except String α → Bool
  | .ok _ => true
  | .error _ => false

/-- Every numeric field of the batting line is either absent or coercible
by `int(...)`. -/
def batLineWF (l : BattingLine) : Bool :=
  exOk (batNums l)

/-- Every numeric field of the pitching line is either absent or coercible
(`int(...)` for counts, `float(...)` for innings). -/
def pitLineWF (l : PitchingLine) : Bool :=
  exOk (pitNums l)

/-- The counting totals of a batting record: games, at_bats, hits, runs,
rbis, doubles, triples, home_runs, walks, strikeouts. -/
def batTotals (s : BatAcc) : ℤ × ℤ × ℤ × ℤ × ℤ × ℤ × ℤ × ℤ × ℤ × ℤ :=
  (s.games, s.at_bats, s.hits, s.runs, s.rbis, s.doubles, s.triples,
   s.home_runs, s.walks, s.strikeouts)

/-- What one batting line adds to those totals. -/
def cbatTotals (c : CBat) : ℤ × ℤ × ℤ × ℤ × ℤ × ℤ × ℤ × ℤ × ℤ × ℤ :=
  (1, c.at_bats, c.hits, c.runs, c.rbis, c.doubles, c.triples,
   c.home_runs, c.walks, c.strikeouts)

/-- The counting totals of a pitching record: games, wins, losses, saves,
innings_pitched, hits_allowed, runs_allowed, earned_runs, walks_allowed,
strikeouts, home_runs_allowed. -/
def pitTotals (s : PitAcc) : ℤ × ℤ × ℤ × ℤ × ℚ × ℤ × ℤ × ℤ × ℤ × ℤ × ℤ :=
  (s.games, s.wins, s.losses, s.saves, s.innings_pitched, s.hits_allowed,
   s.runs_allowed, s.earned_runs, s.walks_allowed, s.strikeouts, s.home_runs_allowed)

/-- What one pitching line adds to those totals. -/
def cpitTotals (c : CPit) : ℤ × ℤ × ℤ × ℤ × ℚ × ℤ × ℤ × ℤ × ℤ × ℤ × ℤ :=
  (1, c.wins, c.losses, c.saves, c.innings_pitched, c.hits_allowed,
   c.runs_allowed, c.earned_runs, c.walks_allowed, c.strikeouts, c.home_runs_allowed)

/-- The four derived batting statistics of a record. -/
def batDerived (s : BatAcc) : ℚ × ℚ × ℚ × ℚ :=
  (s.batting_average, s.on_base_percentage, s.slugging_percentage, s.ops)

/-- The two derived pitching statistics of a record. -/
def pitDerived (s : PitAcc) : ℚ × ℚ :=
  (s.era, s.whip)

/-- The data `get_team_summary` extracts from one game: home name, away
name, `int(home_score)`, `int(away_score)` (lines 199-202). -/
def toTeamGame (g : GameRecord) : Except String (String × String × ℤ × ℤ) := do
  let hs ← pyIntE (g.home_score.getD (.pyInt 0))
  let aw ← pyIntE (g.away_score.getD (.pyInt 0))
  pure (g.home_team.getD "Unknown", g.away_team.getD "Unknown", hs, aw)

/-- Convert every game of the summary input. -/
def toTeamGames : List GameRecord → Except String (List (String × String × ℤ × ℤ))
  | [] => .ok []
  | g :: rest => do
    let tg ← toTeamGame g
    let tgs ← toTeamGames rest
    pure (tg :: tgs)

/-- The pure part of one `get_team_summary` iteration (lines 204-212). -/
def pureTeamStep (m : List (String × TeamRec)) :
    String × String × ℤ × ℤ → List (String × TeamRec)
  | (home, away, hs, aw) =>
    let m := dupd m home (fun r => { r with games_seen := r.games_seen + 1 })
    let m := dupd m away (fun r => { r with games_seen := r.games_seen + 1 })
    if hs > aw then
      dupd (dupd m home (fun r => { r with wins := r.wins + 1 }))
        away (fun r => { r with losses := r.losses + 1 })
    else if aw > hs then
      dupd (dupd m away (fun r => { r with wins := r.wins + 1 }))
        home (fun r => { r with losses := r.losses + 1 })
    else m

/-- Pure accumulation of the team summary. -/
def pureTeamFold (m : List (String × TeamRec)) (tgs : List (String × String × ℤ × ℤ)) :
    List (String × TeamRec) :=
  tgs.foldl pureTeamStep m

/-- A team's record in the summary, zero if the team never appears. -/
def getTeam (m : List (String × TeamRec)) (t : String) : TeamRec :=
  (dget m t).getD teamInit

/-! ## Basic lemmas about `Except`, `dget`, `dset` -/

theorem exmap_ok {α β : Type} {f : α → β} {e : Except String α} {b : β} :
    e.map f = .ok b ↔ ∃ a, e = .ok a ∧ b = f a := by
  cases e <;> simp [Except.map, eq_comm]

theorem dget_dset_self {α : Type} :
    ∀ (m : List (String × α)) (k : String) (v : α), dget (dset m k v) k = some v := by
  intro m
  induction m with
  | nil => intro k v; simp [dset, dget]
  | cons kv rest ih =>
    intro k v
    by_cases h : kv.1 = k
    · cases kv; simp_all [dset, dget]
    · cases kv; simp_all [dset, dget]

theorem dget_dset_ne {α : Type} :
    ∀ (m : List (String × α)) (k k' : String) (v : α), k ≠ k' →
      dget (dset m k v) k' = dget m k' := by
  intro m
  induction m with
  | nil => intro k k' v h; simp [dset, dget, h]
  | cons kv rest ih =>
    intro k k' v h
    by_cases hk : kv.1 = k
    · cases kv; subst hk; simp_all [dset, dget]
    · cases kv; simp_all [dset, dget]

theorem convertBat_fields {team : String} {l : BattingLine} {c : CBat}
    (h : convertBat team l = .ok c) :
    c.key = resolveKeyBat l ∧ c.player_name = l.name.getD "Unknown" ∧ c.team = team := by
  rcases exmap_ok.1 h with ⟨v, _, rfl⟩
  obtain ⟨ab, hh, r, rb, d, t, hr, w, so⟩ := v
  exact ⟨rfl, rfl, rfl⟩

theorem convertPit_fields {team : String} {l : PitchingLine} {c : CPit}
    (h : convertPit team l = .ok c) :
    c.key = resolveKeyPit l ∧ c.player_name = l.name.getD "Unknown" ∧ c.team = team := by
  rcases exmap_ok.1 h with ⟨v, _, rfl⟩
  obtain ⟨w, lo, sv, ip, ha, ra, er, wa, so, hra⟩ := v
  exact ⟨rfl, rfl, rfl⟩

/-! ## Staging: the interleaved folds equal convert-then-fold -/

theorem processBatLines_stage (team : String) (ls : List BattingLine) :
    ∀ (m : List (String × BatAcc)),
      processBatLines team ls m =
        (convertBatAll (ls.map (fun l => (team, l)))).map (fun cs => pureBatFold m cs) := by
  induction ls with
  | nil => intro m; simp [processBatLines, convertBatAll, pureBatFold, Except.map]
  | cons l rest ih =>
    intro m
    cases hc : convertBat team l with
    | error e =>
      simp [processBatLines, processBatLine, convertBatAll, hc, Bind.bind, Except.bind,
        Except.map]
    | ok c =>
      cases hcs : convertBatAll (rest.map (fun l => (team, l))) with
      | error e =>
        have hrec := ih (batFoldStep m c)
        simp [processBatLines, processBatLine, convertBatAll, hc, hcs, Bind.bind,
          Except.bind, Except.map, Pure.pure, Except.pure, hrec]
      | ok cs =>
        have hrec := ih (batFoldStep m c)
        simp [processBatLines, processBatLine, convertBatAll, hc, hcs, Bind.bind,
          Except.bind, Except.map, Pure.pure, Except.pure, hrec, pureBatFold]

theorem processPitLines_stage (team : String) (ls : List PitchingLine) :
    ∀ (m : List (String × PitAcc)),
      processPitLines team ls m =
        (convertPitAll (ls.map (fun l => (team, l)))).map (fun cs => purePitFold m cs) := by
  induction ls with
  | nil => intro m; simp [processPitLines, convertPitAll, purePitFold, Except.map]
  | cons l rest ih =>
    intro m
    cases hc : convertPit team l with
    | error e =>
      simp [processPitLines, processPitLine, convertPitAll, hc, Bind.bind, Except.bind,
        Except.map]
    | ok c =>
      cases hcs : convertPitAll (rest.map (fun l => (team, l))) with
      | error e =>
        have hrec := ih (pitFoldStep m c)
        simp [processPitLines, processPitLine, convertPitAll, hc, hcs, Bind.bind,
          Except.bind, Except.map, Pure.pure, Except.pure, hrec]
      | ok cs =>
        have hrec := ih (pitFoldStep m c)
        simp [processPitLines, processPitLine, convertPitAll, hc, hcs, Bind.bind,
          Except.bind, Except.map, Pure.pure, Except.pure, hrec, purePitFold]

theorem convertBatAll_append (xs ys : List (String × BattingLine)) :
    convertBatAll (xs ++ ys) =
      (convertBatAll xs).bind (fun cs => (convertBatAll ys).map (fun ds => cs ++ ds)) := by
  induction xs with
  | nil =>
    cases h : convertBatAll ys <;>
      simp [convertBatAll, h, Except.bind, Except.map, Pure.pure, Except.pure]
  | cons tl rest ih =>
    simp only [List.cons_append, convertBatAll, List.append_eq]
    rw [ih]
    cases hc : convertBat tl.1 tl.2 <;>
      cases h1 : convertBatAll rest <;>
        cases h2 : convertBatAll ys <;>
          simp [hc, h1, h2, Bind.bind, Except.bind, Except.map, Pure.pure, Except.pure]

theorem convertPitAll_append (xs ys : List (String × PitchingLine)) :
    convertPitAll (xs ++ ys) =
      (convertPitAll xs).bind (fun cs => (convertPitAll ys).map (fun ds => cs ++ ds)) := by
  induction xs with
  | nil =>
    cases h : convertPitAll ys <;>
      simp [convertPitAll, h, Except.bind, Except.map, Pure.pure, Except.pure]
  | cons tl rest ih =>
    simp only [List.cons_append, convertPitAll, List.append_eq]
    rw [ih]
    cases hc : convertPit tl.1 tl.2 <;>
      cases h1 : convertPitAll rest <;>
        cases h2 : convertPitAll ys <;>
          simp [hc, h1, h2, Bind.bind, Except.bind, Except.map, Pure.pure, Except.pure]

theorem process_game_batting_stage (g : GameRecord) (m : List (String × BatAcc)) :
    _process_game_batting_stats g m =
      (convertBatAll (gameBatLines g)).map (fun cs => pureBatFold m cs) := by
  simp only [_process_game_batting_stats, gameBatLines, convertBatAll_append, Bind.bind]
  cases h1 : convertBatAll
      ((g.home_team_batting.getD []).map (fun l => (g.home_team.getD "Unknown", l))) <;>
    cases h2 : convertBatAll
        ((g.away_team_batting.getD []).map (fun l => (g.away_team.getD "Unknown", l))) <;>
      simp [processBatLines_stage, h1, h2, Except.bind, Except.map, pureBatFold,
        Pure.pure, Except.pure, List.foldl_append]

theorem process_game_pitching_stage (g : GameRecord) (m : List (String × PitAcc)) :
    _process_game_pitching_stats g m =
      (convertPitAll (gamePitLines g)).map (fun cs => purePitFold m cs) := by
  simp only [_process_game_pitching_stats, gamePitLines, convertPitAll_append, Bind.bind]
  cases h1 : convertPitAll
      ((g.home_team_pitching.getD []).map (fun l => (g.home_team.getD "Unknown", l))) <;>
    cases h2 : convertPitAll
        ((g.away_team_pitching.getD []).map (fun l => (g.away_team.getD "Unknown", l))) <;>
      simp [processPitLines_stage, h1, h2, Except.bind, Except.map, purePitFold,
        Pure.pure, Except.pure, List.foldl_append]

theorem processAllGames_ok_iff (games : List GameRecord) :
    ∀ (bm : List (String × BatAcc)) (pm : List (String × PitAcc)) bm' pm',
      processAllGames games bm pm = .ok (bm', pm') ↔
        ∃ bcs pcs,
          convertBatAll (battingLinesOf games) = .ok bcs ∧
          convertPitAll (pitchingLinesOf games) = .ok pcs ∧
          bm' = pureBatFold bm bcs ∧ pm' = purePitFold pm pcs := by
  induction games with
  | nil =>
    intro bm pm bm' pm'
    constructor
    · intro h
      simp only [processAllGames] at h
      refine ⟨[], [], rfl, rfl, ?_⟩
      cases h
      exact ⟨rfl, rfl⟩
    · rintro ⟨bcs, pcs, hb, hp, rfl, rfl⟩
      simp only [battingLinesOf, pitchingLinesOf, List.flatMap_nil, convertBatAll,
        convertPitAll] at hb hp
      cases hb
      cases hp
      rfl
  | cons g rest ih =>
    intro bm pm bm' pm'
    constructor
    · intro h
      simp only [processAllGames, Bind.bind] at h
      cases hb : _process_game_batting_stats g bm with
      | error e => rw [hb] at h; cases h
      | ok bm₁ =>
        rw [hb] at h
        cases hp : _process_game_pitching_stats g pm with
        | error e => rw [hp] at h; cases h
        | ok pm₁ =>
          rw [hp] at h
          rw [process_game_batting_stage] at hb
          rw [process_game_pitching_stage] at hp
          rcases exmap_ok.1 hb with ⟨bcsg, hbg, rfl⟩
          rcases exmap_ok.1 hp with ⟨pcsg, hpg, rfl⟩
          rcases (ih _ _ _ _).1 h with ⟨bcsr, pcsr, hbr, hpr, rfl, rfl⟩
          refine ⟨bcsg ++ bcsr, pcsg ++ pcsr, ?_, ?_, ?_, ?_⟩
          · have hbr' : convertBatAll (rest.flatMap gameBatLines) = .ok bcsr := hbr
            simp [battingLinesOf, List.flatMap_cons, convertBatAll_append, hbg, hbr',
              Except.bind, Except.map]
          · have hpr' : convertPitAll (rest.flatMap gamePitLines) = .ok pcsr := hpr
            simp [pitchingLinesOf, List.flatMap_cons, convertPitAll_append, hpg, hpr',
              Except.bind, Except.map]
          · simp [pureBatFold, List.foldl_append]
          · simp [purePitFold, List.foldl_append]
    · rintro ⟨bcs, pcs, hb, hp, rfl, rfl⟩
      simp only [battingLinesOf, List.flatMap_cons, convertBatAll_append] at hb
      simp only [pitchingLinesOf, List.flatMap_cons, convertPitAll_append] at hp
      cases hbg : convertBatAll (gameBatLines g) with
      | error e => rw [hbg] at hb; cases hb
      | ok bcsg =>
        rw [hbg] at hb
        cases hbr : convertBatAll (rest.flatMap gameBatLines) with
        | error e => rw [hbr] at hb; cases hb
        | ok bcsr =>
          rw [hbr] at hb
          simp only [Except.bind, Except.map] at hb
          cases hpg : convertPitAll (gamePitLines g) with
          | error e => rw [hpg] at hp; cases hp
          | ok pcsg =>
            rw [hpg] at hp
            cases hpr : convertPitAll (rest.flatMap gamePitLines) with
            | error e => rw [hpr] at hp; cases hp
            | ok pcsr =>
              rw [hpr] at hp
              simp only [Except.bind, Except.map] at hp
              cases hb
              cases hp
              have hstep : processAllGames (g :: rest) bm pm =
                  processAllGames rest (pureBatFold bm bcsg) (purePitFold pm pcsg) := by
                simp [processAllGames, Bind.bind, process_game_batting_stage,
                  process_game_pitching_stage, hbg, hpg, Except.bind, Except.map,
                  Pure.pure, Except.pure]
              rw [hstep]
              rw [(ih _ _ _ _).2 ⟨bcsr, pcsr, by simpa [battingLinesOf] using hbr,
                by simpa [pitchingLinesOf] using hpr, rfl, rfl⟩]
              simp [pureBatFold, purePitFold, List.foldl_append]

theorem teamStep_stage (m : List (String × TeamRec)) (g : GameRecord) :
    teamStep m g = (toTeamGame g).map (fun tg => pureTeamStep m tg) := by
  cases h1 : pyIntE (g.home_score.getD (.pyInt 0)) <;>
    cases h2 : pyIntE (g.away_score.getD (.pyInt 0)) <;>
      simp [teamStep, toTeamGame, pureTeamStep, h1, h2, Bind.bind, Except.bind,
        Except.map, Pure.pure, Except.pure]

theorem teamFold_stage (games : List GameRecord) :
    ∀ (m : List (String × TeamRec)),
      teamFold games m = (toTeamGames games).map (fun tgs => pureTeamFold m tgs) := by
  induction games with
  | nil => intro m; simp [teamFold, toTeamGames, pureTeamFold, Except.map]
  | cons g rest ih =>
    intro m
    cases hg : toTeamGame g with
    | error e =>
      simp [teamFold, teamStep_stage, toTeamGames, hg, Bind.bind, Except.bind,
        Except.map]
    | ok tg =>
      cases hr : toTeamGames rest with
      | error e =>
        have hrec := ih (pureTeamStep m tg)
        simp [teamFold, teamStep_stage, toTeamGames, hg, hr, Bind.bind, Except.bind,
          Except.map, Pure.pure, Except.pure, hrec]
      | ok tgs =>
        have hrec := ih (pureTeamStep m tg)
        simp [teamFold, teamStep_stage, toTeamGames, hg, hr, Bind.bind, Except.bind,
          Except.map, Pure.pure, Except.pure, hrec, pureTeamFold]

/-! ## Per-key characterization of the accumulator folds -/

theorem dget_foldl_char {α C : Type} [DecidableEq C] (key : C → String) (app : α → C → α) (init : α)
    (step : List (String × α) → C → List (String × α))
    (hstep : ∀ m c, step m c = dset m (key c) (app ((dget m (key c)).getD init) c))
    (k : String) :
    ∀ (cs : List C) (m : List (String × α)),
      dget (cs.foldl step m) k =
        if (cs.filter (fun c => key c == k)) = [] then dget m k
        else some ((cs.filter (fun c => key c == k)).foldl app ((dget m k).getD init)) := by
  intro cs
  induction cs with
  | nil => intro m; simp
  | cons c cs' ih =>
    intro m
    by_cases hkc : key c = k
    · have hd : dget (step m c) k = some (app ((dget m k).getD init) c) := by
        rw [hstep, hkc]
        exact dget_dset_self m k _
      have hfilter : (c :: cs').filter (fun c => key c == k) =
          c :: cs'.filter (fun c => key c == k) := by
        simp [List.filter_cons, hkc]
      rw [List.foldl_cons, ih (step m c), hfilter]
      by_cases hrest : cs'.filter (fun c => key c == k) = []
      · simp [hrest, hd]
      · simp [hrest, hd]
    · have hd : dget (step m c) k = dget m k := by
        rw [hstep]
        exact dget_dset_ne m (key c) k _ hkc
      have hfilter : (c :: cs').filter (fun c => key c == k) =
          cs'.filter (fun c => key c == k) := by
        simp [List.filter_cons, hkc]
      rw [List.foldl_cons, ih (step m c), hfilter, hd]

theorem dget_pureBatFold (k : String) (cs : List CBat) (m : List (String × BatAcc)) :
    dget (pureBatFold m cs) k =
      if (cs.filter (fun c => c.key == k)) = [] then dget m k
      else some ((cs.filter (fun c => c.key == k)).foldl applyCBat ((dget m k).getD batInit)) :=
  dget_foldl_char CBat.key applyCBat batInit batFoldStep (fun _ _ => rfl) k cs m

theorem dget_purePitFold (k : String) (cs : List CPit) (m : List (String × PitAcc)) :
    dget (purePitFold m cs) k =
      if (cs.filter (fun c => c.key == k)) = [] then dget m k
      else some ((cs.filter (fun c => c.key == k)).foldl applyCPit ((dget m k).getD pitInit)) :=
  dget_foldl_char CPit.key applyCPit pitInit pitFoldStep (fun _ _ => rfl) k cs m

/-! ## Projections of accumulator folds -/

theorem foldl_app_proj {α C β : Type} [AddCommMonoid β] (app : α → C → α)
    (p : α → β) (q : C → β) (hp : ∀ a c, p (app a c) = p a + q c) :
    ∀ (fs : List C) (a : α), p (fs.foldl app a) = p a + (fs.map q).sum := by
  intro fs
  induction fs with
  | nil => intro a; simp
  | cons c fs' ih =>
    intro a
    rw [List.foldl_cons, ih (app a c), hp, List.map_cons, List.sum_cons, add_assoc]

theorem foldl_app_last {α C β : Type} (app : α → C → α) (p : α → β) (pc : C → β)
    (hp : ∀ a c, p (app a c) = pc c) :
    ∀ (fs : List C) (a : α) (c : C), fs.getLast? = some c → p (fs.foldl app a) = pc c := by
  intro fs
  induction fs with
  | nil => intro a c h; cases h
  | cons x fs' ih =>
    intro a c h
    cases fs' with
    | nil =>
      simp only [List.getLast?_singleton, Option.some.injEq] at h
      subst h
      simp [hp]
    | cons y t =>
      rw [List.getLast?_cons_cons] at h
      rw [List.foldl_cons]
      exact ih (app a x) c h

theorem foldl_app_const {α C β : Type} (app : α → C → α) (p : α → β)
    (hp : ∀ a c, p (app a c) = p a) :
    ∀ (fs : List C) (a : α), p (fs.foldl app a) = p a := by
  intro fs
  induction fs with
  | nil => intro a; rfl
  | cons c fs' ih => intro a; rw [List.foldl_cons, ih (app a c), hp]

/-! ## Conversion lists as mapped totals -/

theorem convertBatAll_eq_map {ls : List (String × BattingLine)} {cs : List CBat}
    (h : convertBatAll ls = .ok cs) : cs = ls.map convertBatD := by
  induction ls generalizing cs with
  | nil => cases h; rfl
  | cons tl rest ih =>
    simp only [convertBatAll, Bind.bind] at h
    cases hc : convertBat tl.1 tl.2 with
    | error e => rw [hc] at h; cases h
    | ok c =>
      rw [hc] at h
      cases hr : convertBatAll rest with
      | error e => rw [hr] at h; cases h
      | ok cs' =>
        rw [hr] at h
        simp only [Except.bind, Pure.pure, Except.pure, Except.ok.injEq] at h
        subst h
        rw [List.map_cons, ← ih hr]
        have : convertBatD tl = c := by simp [convertBatD, hc]
        rw [this]

theorem convertPitAll_eq_map {ls : List (String × PitchingLine)} {cs : List CPit}
    (h : convertPitAll ls = .ok cs) : cs = ls.map convertPitD := by
  induction ls generalizing cs with
  | nil => cases h; rfl
  | cons tl rest ih =>
    simp only [convertPitAll, Bind.bind] at h
    cases hc : convertPit tl.1 tl.2 with
    | error e => rw [hc] at h; cases h
    | ok c =>
      rw [hc] at h
      cases hr : convertPitAll rest with
      | error e => rw [hr] at h; cases h
      | ok cs' =>
        rw [hr] at h
        simp only [Except.bind, Pure.pure, Except.pure, Except.ok.injEq] at h
        subst h
        rw [List.map_cons, ← ih hr]
        have : convertPitD tl = c := by simp [convertPitD, hc]
        rw [this]

theorem exOk_convertBat (t : String) (l : BattingLine) :
    exOk (convertBat t l) = batLineWF l := by
  cases h : batNums l <;> simp [convertBat, batLineWF, h, Except.map, exOk]

theorem exOk_convertPit (t : String) (l : PitchingLine) :
    exOk (convertPit t l) = pitLineWF l := by
  cases h : pitNums l <;> simp [convertPit, pitLineWF, h, Except.map, exOk]

theorem convertBatAll_ok_iff (ls : List (String × BattingLine)) :
    (∃ cs, convertBatAll ls = .ok cs) ↔ (∀ tl ∈ ls, batLineWF tl.2 = true) := by
  induction ls with
  | nil => simp [convertBatAll]
  | cons tl rest ih =>
    constructor
    · rintro ⟨cs, h⟩
      simp only [convertBatAll, Bind.bind] at h
      cases hc : convertBat tl.1 tl.2 with
      | error e => rw [hc] at h; cases h
      | ok c =>
        rw [hc] at h
        cases hr : convertBatAll rest with
        | error e => rw [hr] at h; cases h
        | ok cs' =>
          intro tl' htl'
          rcases List.mem_cons.1 htl' with rfl | hmem
          · rw [← exOk_convertBat tl'.1, hc]; rfl
          · exact (ih.1 ⟨cs', hr⟩) tl' hmem
    · intro hwf
      have h1 : batLineWF tl.2 = true := hwf tl (List.mem_cons_self tl rest)
      have h2 := ih.2 (fun tl' h => hwf tl' (List.mem_cons_of_mem tl h))
      rcases h2 with ⟨cs', hr⟩
      have : exOk (convertBat tl.1 tl.2) = true := by rw [exOk_convertBat]; exact h1
      cases hc : convertBat tl.1 tl.2 with
      | error e => rw [hc] at this; cases this
      | ok c =>
        exact ⟨c :: cs', by simp [convertBatAll, Bind.bind, hc, hr, Except.bind,
          Pure.pure, Except.pure]⟩

theorem convertPitAll_ok_iff (ls : List (String × PitchingLine)) :
    (∃ cs, convertPitAll ls = .ok cs) ↔ (∀ tl ∈ ls, pitLineWF tl.2 = true) := by
  induction ls with
  | nil => simp [convertPitAll]
  | cons tl rest ih =>
    constructor
    · rintro ⟨cs, h⟩
      simp only [convertPitAll, Bind.bind] at h
      cases hc : convertPit tl.1 tl.2 with
      | error e => rw [hc] at h; cases h
      | ok c =>
        rw [hc] at h
        cases hr : convertPitAll rest with
        | error e => rw [hr] at h; cases h
        | ok cs' =>
          intro tl' htl'
          rcases List.mem_cons.1 htl' with rfl | hmem
          · rw [← exOk_convertPit tl'.1, hc]; rfl
          · exact (ih.1 ⟨cs', hr⟩) tl' hmem
    · intro hwf
      have h1 : pitLineWF tl.2 = true := hwf tl (List.mem_cons_self tl rest)
      have h2 := ih.2 (fun tl' h => hwf tl' (List.mem_cons_of_mem tl h))
      rcases h2 with ⟨cs', hr⟩
      have : exOk (convertPit tl.1 tl.2) = true := by rw [exOk_convertPit]; exact h1
      cases hc : convertPit tl.1 tl.2 with
      | error e => rw [hc] at this; cases this
      | ok c =>
        exact ⟨c :: cs', by simp [convertPitAll, Bind.bind, hc, hr, Except.bind,
          Pure.pure, Except.pure]⟩

theorem convertBatD_fields {tl : String × BattingLine} (h : batLineWF tl.2 = true) :
    (convertBatD tl).key = resolveKeyBat tl.2 ∧
    (convertBatD tl).player_name = tl.2.name.getD "Unknown" ∧
    (convertBatD tl).team = tl.1 := by
  have hok : exOk (convertBat tl.1 tl.2) = true := by rw [exOk_convertBat]; exact h
  cases hc : convertBat tl.1 tl.2 with
  | error e => rw [hc] at hok; cases hok
  | ok c =>
    have : convertBatD tl = c := by simp [convertBatD, hc]
    rw [this]
    exact convertBat_fields hc

theorem convertPitD_fields {tl : String × PitchingLine} (h : pitLineWF tl.2 = true) :
    (convertPitD tl).key = resolveKeyPit tl.2 ∧
    (convertPitD tl).player_name = tl.2.name.getD "Unknown" ∧
    (convertPitD tl).team = tl.1 := by
  have hok : exOk (convertPit tl.1 tl.2) = true := by rw [exOk_convertPit]; exact h
  cases hc : convertPit tl.1 tl.2 with
  | error e => rw [hc] at hok; cases hok
  | ok c =>
    have : convertPitD tl = c := by simp [convertPitD, hc]
    rw [this]
    exact convertPit_fields hc

/-! ## Normal forms for the derived-statistics passes -/

theorem computeBatDerived_counts (s : BatAcc) :
    (computeBatDerived s).player_name = s.player_name ∧
    (computeBatDerived s).team = s.team ∧
    (computeBatDerived s).games = s.games ∧
    (computeBatDerived s).at_bats = s.at_bats ∧
    (computeBatDerived s).hits = s.hits ∧
    (computeBatDerived s).runs = s.runs ∧
    (computeBatDerived s).rbis = s.rbis ∧
    (computeBatDerived s).doubles = s.doubles ∧
    (computeBatDerived s).triples = s.triples ∧
    (computeBatDerived s).home_runs = s.home_runs ∧
    (computeBatDerived s).walks = s.walks ∧
    (computeBatDerived s).strikeouts = s.strikeouts := by
  unfold computeBatDerived
  dsimp only
  split_ifs <;>
    exact ⟨rfl, rfl, rfl, rfl, rfl, rfl, rfl, rfl, rfl, rfl, rfl, rfl⟩

theorem computeBatDerived_derived (s : BatAcc) :
    (computeBatDerived s).batting_average =
      (if s.at_bats > 0 then roundTo 3 ((s.hits : ℚ) / (s.at_bats : ℚ))
       else s.batting_average) ∧
    (computeBatDerived s).on_base_percentage =
      (if s.at_bats + s.walks > 0 then
        roundTo 3 (((s.hits + s.walks : ℤ) : ℚ) / ((s.at_bats + s.walks : ℤ) : ℚ))
       else s.on_base_percentage) ∧
    (computeBatDerived s).slugging_percentage =
      (if s.at_bats > 0 then
        roundTo 3 (((s.hits - s.doubles - s.triples - s.home_runs +
          s.doubles * 2 + s.triples * 3 + s.home_runs * 4 : ℤ) : ℚ) / (s.at_bats : ℚ))
       else s.slugging_percentage) ∧
    (computeBatDerived s).ops =
      roundTo 3 ((computeBatDerived s).on_base_percentage +
        (computeBatDerived s).slugging_percentage) := by
  unfold computeBatDerived
  dsimp only
  split_ifs <;> exact ⟨rfl, rfl, rfl, rfl⟩

theorem computePitDerived_counts (s : PitAcc) :
    (computePitDerived s).player_name = s.player_name ∧
    (computePitDerived s).team = s.team ∧
    (computePitDerived s).games = s.games ∧
    (computePitDerived s).wins = s.wins ∧
    (computePitDerived s).losses = s.losses ∧
    (computePitDerived s).saves = s.saves ∧
    (computePitDerived s).innings_pitched = s.innings_pitched ∧
    (computePitDerived s).hits_allowed = s.hits_allowed ∧
    (computePitDerived s).runs_allowed = s.runs_allowed ∧
    (computePitDerived s).earned_runs = s.earned_runs ∧
    (computePitDerived s).walks_allowed = s.walks_allowed ∧
    (computePitDerived s).strikeouts = s.strikeouts ∧
    (computePitDerived s).home_runs_allowed = s.home_runs_allowed := by
  unfold computePitDerived
  dsimp only
  split_ifs <;>
    exact ⟨rfl, rfl, rfl, rfl, rfl, rfl, rfl, rfl, rfl, rfl, rfl, rfl, rfl⟩

theorem computePitDerived_derived (s : PitAcc) :
    (computePitDerived s).era =
      (if s.innings_pitched > 0 then
        roundTo 2 (((s.earned_runs * 9 : ℤ) : ℚ) / s.innings_pitched)
       else s.era) ∧
    (computePitDerived s).whip =
      (if s.innings_pitched > 0 then
        roundTo 2 (((s.hits_allowed + s.walks_allowed : ℤ) : ℚ) / s.innings_pitched)
       else s.whip) := by
  unfold computePitDerived
  dsimp only
  split_ifs <;> exact ⟨rfl, rfl⟩

/-! ## Team-summary characterization -/

theorem getTeam_dupd (m : List (String × TeamRec)) (k : String) (f : TeamRec → TeamRec)
    (t : String) :
    getTeam (dupd m k f) t = if k = t then f (getTeam m t) else getTeam m t := by
  by_cases h : k = t
  · subst h
    simp [getTeam, dupd, dget_dset_self]
  · simp [getTeam, dupd, dget_dset_ne m k t _ h, h]

/-- Is team `t` the winner of this (home, away, home_score, away_score) game? -/
def winIndicator (t : String) (tg : String × String × ℤ × ℤ) : Bool :=
  (tg.1 == t && decide (tg.2.2.2 < tg.2.2.1)) || (tg.2.1 == t && decide (tg.2.2.1 < tg.2.2.2))

/-- Is team `t` the loser of this game? -/
def lossIndicator (t : String) (tg : String × String × ℤ × ℤ) : Bool :=
  (tg.1 == t && decide (tg.2.2.1 < tg.2.2.2)) || (tg.2.1 == t && decide (tg.2.2.2 < tg.2.2.1))

theorem getTeam_pureTeamStep (m : List (String × TeamRec)) (home away : String)
    (hs aw : ℤ) (t : String) :
    (getTeam (pureTeamStep m (home, away, hs, aw)) t).wins =
      (getTeam m t).wins + (if winIndicator t (home, away, hs, aw) then 1 else 0) ∧
    (getTeam (pureTeamStep m (home, away, hs, aw)) t).losses =
      (getTeam m t).losses + (if lossIndicator t (home, away, hs, aw) then 1 else 0) ∧
    (getTeam (pureTeamStep m (home, away, hs, aw)) t).games_seen =
      (getTeam m t).games_seen +
        ((if home = t then 1 else 0) + (if away = t then 1 else 0)) := by
  dsimp only [pureTeamStep, winIndicator, lossIndicator]
  by_cases h1 : aw < hs <;> by_cases h2 : hs < aw <;>
    by_cases hh : home = t <;> by_cases ha : away = t <;>
      simp [getTeam_dupd, h1, h2, hh, ha, Int.lt_iff_add_one_le] <;>
        omega

theorem getTeam_pureTeamFold (tgs : List (String × String × ℤ × ℤ)) :
    ∀ (m : List (String × TeamRec)) (t : String),
      (getTeam (pureTeamFold m tgs) t).wins =
        (getTeam m t).wins + (tgs.countP (winIndicator t) : ℤ) ∧
      (getTeam (pureTeamFold m tgs) t).losses =
        (getTeam m t).losses + (tgs.countP (lossIndicator t) : ℤ) ∧
      (getTeam (pureTeamFold m tgs) t).games_seen =
        (getTeam m t).games_seen + (tgs.countP (fun tg => tg.1 == t) : ℤ) +
          (tgs.countP (fun tg => tg.2.1 == t) : ℤ) := by
  induction tgs with
  | nil => intro m t; simp [pureTeamFold]
  | cons tg rest ih =>
    intro m t
    obtain ⟨home, away, hs, aw⟩ := tg
    have hstep := getTeam_pureTeamStep m home away hs aw t
    have hrec := ih (pureTeamStep m (home, away, hs, aw)) t
    have hfold : pureTeamFold m ((home, away, hs, aw) :: rest) =
        pureTeamFold (pureTeamStep m (home, away, hs, aw)) rest := rfl
    rw [hfold]
    refine ⟨?_, ?_, ?_⟩
    · rw [hrec.1, hstep.1, List.countP_cons]
      by_cases hw : winIndicator t (home, away, hs, aw) = true <;> simp [hw] <;> push_cast <;> ring
    · rw [hrec.2.1, hstep.2.1, List.countP_cons]
      by_cases hw : lossIndicator t (home, away, hs, aw) = true <;> simp [hw] <;> push_cast <;> ring
    · rw [hrec.2.2, hstep.2.2, List.countP_cons, List.countP_cons]
      by_cases hh : home = t <;> by_cases ha : away = t <;>
        simp [hh, ha] <;> push_cast <;> ring

/-- Sum of one integer field over the whole summary map. -/
def sumTeamBy (p : TeamRec → ℤ) (m : List (String × TeamRec)) : ℤ :=
  (m.map (fun kv => p kv.2)).sum

theorem sumTeamBy_dupd (p : TeamRec → ℤ) (h0 : p teamInit = 0) (f : TeamRec → TeamRec)
    (d : ℤ) (hf : ∀ r, p (f r) = p r + d) :
    ∀ (m : List (String × TeamRec)) (k : String),
      sumTeamBy p (dupd m k f) = sumTeamBy p m + d := by
  intro m
  induction m with
  | nil =>
    intro k
    simp [dupd, dget, dset, sumTeamBy, hf, h0]
  | cons kv rest ih =>
    intro k
    by_cases hk : kv.1 = k
    · obtain ⟨k1, v⟩ := kv
      subst hk
      simp [dupd, dget, dset, sumTeamBy, hf]
      ring
    · obtain ⟨k1, v⟩ := kv
      have hstep : dupd ((k1, v) :: rest) k f = (k1, v) :: dupd rest k f := by
        simp [dupd, dget, dset, hk]
      rw [hstep]
      simp only [sumTeamBy, List.map_cons, List.sum_cons] at *
      rw [ih k]
      ring

theorem sums_pureTeamStep (m : List (String × TeamRec)) (home away : String) (hs aw : ℤ) :
    sumTeamBy (fun r => r.wins) (pureTeamStep m (home, away, hs, aw)) =
      sumTeamBy (fun r => r.wins) m + (if hs = aw then 0 else 1) ∧
    sumTeamBy (fun r => r.losses) (pureTeamStep m (home, away, hs, aw)) =
      sumTeamBy (fun r => r.losses) m + (if hs = aw then 0 else 1) := by
  dsimp only [pureTeamStep]
  by_cases h1 : aw < hs <;> by_cases h2 : hs < aw
  · omega
  · have heq : ¬hs = aw := by omega
    rw [if_pos (by omega : hs > aw)]
    constructor
    · rw [sumTeamBy_dupd _ rfl _ 0 (fun r => by simp),
        sumTeamBy_dupd _ rfl _ 1 (fun r => by simp),
        sumTeamBy_dupd _ rfl _ 0 (fun r => by simp),
        sumTeamBy_dupd _ rfl _ 0 (fun r => by simp)]
      simp [heq]
    · rw [sumTeamBy_dupd _ rfl _ 1 (fun r => by simp),
        sumTeamBy_dupd _ rfl _ 0 (fun r => by simp),
        sumTeamBy_dupd _ rfl _ 0 (fun r => by simp),
        sumTeamBy_dupd _ rfl _ 0 (fun r => by simp)]
      simp [heq]
  · have heq : ¬hs = aw := by omega
    rw [if_neg (by omega : ¬hs > aw), if_pos (by omega : aw > hs)]
    constructor
    · rw [sumTeamBy_dupd _ rfl _ 0 (fun r => by simp),
        sumTeamBy_dupd _ rfl _ 1 (fun r => by simp),
        sumTeamBy_dupd _ rfl _ 0 (fun r => by simp),
        sumTeamBy_dupd _ rfl _ 0 (fun r => by simp)]
      simp [heq]
    · rw [sumTeamBy_dupd _ rfl _ 1 (fun r => by simp),
        sumTeamBy_dupd _ rfl _ 0 (fun r => by simp),
        sumTeamBy_dupd _ rfl _ 0 (fun r => by simp),
        sumTeamBy_dupd _ rfl _ 0 (fun r => by simp)]
      simp [heq]
  · have heq : hs = aw := by omega
    rw [if_neg (by omega : ¬hs > aw), if_neg (by omega : ¬aw > hs)]
    constructor
    · rw [sumTeamBy_dupd _ rfl _ 0 (fun r => by simp),
        sumTeamBy_dupd _ rfl _ 0 (fun r => by simp)]
      simp [heq]
    · rw [sumTeamBy_dupd _ rfl _ 0 (fun r => by simp),
        sumTeamBy_dupd _ rfl _ 0 (fun r => by simp)]
      simp [heq]

theorem sums_pureTeamFold (tgs : List (String × String × ℤ × ℤ)) :
    ∀ (m : List (String × TeamRec)),
      sumTeamBy (fun r => r.wins) (pureTeamFold m tgs) =
        sumTeamBy (fun r => r.wins) m +
          (tgs.countP (fun tg => !(tg.2.2.1 == tg.2.2.2)) : ℤ) ∧
      sumTeamBy (fun r => r.losses) (pureTeamFold m tgs) =
        sumTeamBy (fun r => r.losses) m +
          (tgs.countP (fun tg => !(tg.2.2.1 == tg.2.2.2)) : ℤ) := by
  induction tgs with
  | nil => intro m; simp [pureTeamFold]
  | cons tg rest ih =>
    intro m
    obtain ⟨home, away, hs, aw⟩ := tg
    have hstep := sums_pureTeamStep m home away hs aw
    have hrec := ih (pureTeamStep m (home, away, hs, aw))
    have hfold : pureTeamFold m ((home, away, hs, aw) :: rest) =
        pureTeamFold (pureTeamStep m (home, away, hs, aw)) rest := rfl
    rw [hfold]
    constructor
    · rw [hrec.1, hstep.1, List.countP_cons]
      by_cases he : hs = aw <;> simp [he] <;> push_cast <;> ring
    · rw [hrec.2, hstep.2, List.countP_cons]
      by_cases he : hs = aw <;> simp [he] <;> push_cast <;> ring

/-! ## Map membership -/

theorem dget_mem {α : Type} :
    ∀ (m : List (String × α)) (k : String) (v : α), dget m k = some v → (k, v) ∈ m := by
  intro m
  induction m with
  | nil => intro k v h; cases h
  | cons kv rest ih =>
    intro k v h
    by_cases hk : kv.1 = k
    · obtain ⟨k1, w⟩ := kv
      subst hk
      simp [dget] at h
      subst h
      exact List.mem_cons_self _ _
    · obtain ⟨k1, w⟩ := kv
      simp [dget, hk] at h
      exact List.mem_cons_of_mem _ (ih k v h)

theorem mem_dset {α : Type} :
    ∀ (m : List (String × α)) (k : String) (v : α) (kv' : String × α),
      kv' ∈ dset m k v → kv' ∈ m ∨ kv' = (k, v) := by
  intro m
  induction m with
  | nil => intro k v kv' h; simp [dset] at h; right; exact h
  | cons kv rest ih =>
    intro k v kv' h
    by_cases hk : kv.1 = k
    · obtain ⟨k1, w⟩ := kv
      subst hk
      simp [dset] at h
      rcases h with rfl | hmem
      · right; rfl
      · left; exact List.mem_cons_of_mem _ hmem
    · obtain ⟨k1, w⟩ := kv
      simp [dset, hk] at h
      rcases h with rfl | hmem
      · left; exact List.mem_cons_self _ _
      · rcases ih k v kv' hmem with hmem' | rfl
        · left; exact List.mem_cons_of_mem _ hmem'
        · right; rfl

/-- Every value stored by the fold is reachable from `init` (or a value
already in the map) by applying contributions. -/
theorem foldl_values {α C : Type} (key : C → String) (app : α → C → α) (init : α)
    (step : List (String × α) → C → List (String × α))
    (hstep : ∀ m c, step m c = dset m (key c) (app ((dget m (key c)).getD init) c))
    (P : α → Prop) (hP : ∀ a c, (a = init ∨ P a) → P (app a c)) :
    ∀ (cs : List C) (m : List (String × α)), (∀ kv ∈ m, P kv.2) →
      ∀ kv ∈ cs.foldl step m, P kv.2 := by
  intro cs
  induction cs with
  | nil => intro m hm kv hkv; exact hm kv hkv
  | cons c cs' ih =>
    intro m hm kv hkv
    refine ih (step m c) ?_ kv hkv
    intro kv' hkv'
    rw [hstep] at hkv'
    rcases mem_dset m (key c) _ kv' hkv' with hmem | rfl
    · exact hm kv' hmem
    · cases hd : dget m (key c) with
      | none => exact hP _ _ (Or.inl rfl)
      | some a => exact hP _ _ (Or.inr (hm (key c, a) (dget_mem m _ _ hd)))

/-- Derived fields are still zero in every batting accumulator entry. -/
theorem pureBatFold_derived_zero (cs : List CBat) :
    ∀ kv ∈ pureBatFold [] cs, batDerived kv.2 = (0, 0, 0, 0) := by
  have h := foldl_values CBat.key applyCBat batInit batFoldStep (fun _ _ => rfl)
    (fun a => batDerived a = (0, 0, 0, 0)) ?_ cs [] (by intro kv h; cases h)
  · exact h
  · rintro a c (rfl | ha)
    · rfl
    · simpa [batDerived, applyCBat] using ha

/-- Derived fields are still zero in every pitching accumulator entry. -/
theorem purePitFold_derived_zero (cs : List CPit) :
    ∀ kv ∈ purePitFold [] cs, pitDerived kv.2 = (0, 0) := by
  have h := foldl_values CPit.key applyCPit pitInit pitFoldStep (fun _ _ => rfl)
    (fun a => pitDerived a = (0, 0)) ?_ cs [] (by intro kv h; cases h)
  · exact h
  · rintro a c (rfl | ha)
    · rfl
    · simpa [pitDerived, applyCPit] using ha

theorem roundTo_zero (n : ℕ) : roundTo n 0 = 0 := by
  have h : roundHalfEven 0 = 0 := by with_unfolding_all rfl
  simp [roundTo, h]

theorem calculate_eq_of_process (games : List GameRecord) (bm : List (String × BatAcc))
    (pm : List (String × PitAcc)) (h : processAllGames games [] [] = .ok (bm, pm)) :
    calculate_aggregate_stats games =
      .ok (_calculate_batting_averages bm, _calculate_pitching_averages pm) := by
  simp [calculate_aggregate_stats, h, Bind.bind, Except.bind, Pure.pure, Except.pure]

theorem calculate_ok_elim (games : List GameRecord) (b : List BatAcc) (p : List PitAcc)
    (h : calculate_aggregate_stats games = .ok (b, p)) :
    ∃ bm pm, processAllGames games [] [] = .ok (bm, pm) ∧
      b = _calculate_batting_averages bm ∧ p = _calculate_pitching_averages pm := by
  cases hall : processAllGames games [] [] with
  | error e =>
    simp [calculate_aggregate_stats, hall, Bind.bind, Except.bind] at h
  | ok r =>
    obtain ⟨bm, pm⟩ := r
    refine ⟨bm, pm, rfl, ?_, ?_⟩ <;>
      · simp [calculate_aggregate_stats, hall, Bind.bind, Except.bind, Pure.pure,
          Except.pure] at h
        tauto

/-! ## Totals as sums of per-line contributions -/

theorem batTotals_applyCBat (a : BatAcc) (c : CBat) :
    batTotals (applyCBat a c) = batTotals a + cbatTotals c := rfl

theorem pitTotals_applyCPit (a : PitAcc) (c : CPit) :
    pitTotals (applyCPit a c) = pitTotals a + cpitTotals c := rfl

theorem batTotals_foldl (fs : List CBat) (a : BatAcc) :
    batTotals (fs.foldl applyCBat a) = batTotals a + (fs.map cbatTotals).sum :=
  foldl_app_proj applyCBat batTotals cbatTotals batTotals_applyCBat fs a

theorem pitTotals_foldl (fs : List CPit) (a : PitAcc) :
    pitTotals (fs.foldl applyCPit a) = pitTotals a + (fs.map cpitTotals).sum :=
  foldl_app_proj applyCPit pitTotals cpitTotals pitTotals_applyCPit fs a

/-! ## Derived statistics depend only on the totals -/

theorem batDerived_congr (s₁ s₂ : BatAcc) (ht : batTotals s₁ = batTotals s₂)
    (hz₁ : batDerived s₁ = (0, 0, 0, 0)) (hz₂ : batDerived s₂ = (0, 0, 0, 0)) :
    batDerived (computeBatDerived s₁) = batDerived (computeBatDerived s₂) := by
  obtain ⟨e1ba, e1ob, e1sl, e1op⟩ := computeBatDerived_derived s₁
  obtain ⟨e2ba, e2ob, e2sl, e2op⟩ := computeBatDerived_derived s₂
  simp only [batTotals, Prod.mk.injEq] at ht
  obtain ⟨hg, hab, hh, hr, hrb, hd, htr, hhr, hw, hso⟩ := ht
  simp only [batDerived, Prod.mk.injEq] at hz₁ hz₂
  obtain ⟨z1a, z1b, z1c, z1d⟩ := hz₁
  obtain ⟨z2a, z2b, z2c, z2d⟩ := hz₂
  have hba : (computeBatDerived s₁).batting_average = (computeBatDerived s₂).batting_average := by
    rw [e1ba, e2ba, hab, hh, z1a, z2a]
  have hob : (computeBatDerived s₁).on_base_percentage =
      (computeBatDerived s₂).on_base_percentage := by
    rw [e1ob, e2ob, hab, hh, hw, z1b, z2b]
  have hsl : (computeBatDerived s₁).slugging_percentage =
      (computeBatDerived s₂).slugging_percentage := by
    rw [e1sl, e2sl, hab, hh, hd, htr, hhr, z1c, z2c]
  have hop : (computeBatDerived s₁).ops = (computeBatDerived s₂).ops := by
    rw [e1op, e2op, hob, hsl]
  simp [batDerived, hba, hob, hsl, hop]

theorem pitDerived_congr (s₁ s₂ : PitAcc) (ht : pitTotals s₁ = pitTotals s₂)
    (hz₁ : pitDerived s₁ = (0, 0)) (hz₂ : pitDerived s₂ = (0, 0)) :
    pitDerived (computePitDerived s₁) = pitDerived (computePitDerived s₂) := by
  obtain ⟨e1er, e1wh⟩ := computePitDerived_derived s₁
  obtain ⟨e2er, e2wh⟩ := computePitDerived_derived s₂
  simp only [pitTotals, Prod.mk.injEq] at ht
  obtain ⟨hg, hw, hl, hsv, hip, hha, hra, her, hwa, hso, hhr⟩ := ht
  simp only [pitDerived, Prod.mk.injEq] at hz₁ hz₂
  obtain ⟨z1a, z1b⟩ := hz₁
  obtain ⟨z2a, z2b⟩ := hz₂
  have her' : (computePitDerived s₁).era = (computePitDerived s₂).era := by
    rw [e1er, e2er, hip, her, z1a, z2a]
  have hwh : (computePitDerived s₁).whip = (computePitDerived s₂).whip := by
    rw [e1wh, e2wh, hip, hha, hwa, z1b, z2b]
  simp [pitDerived, her', hwh]

/-! ## Character and parsing helpers for `parse_innings` -/

theorem dropWhile_forall_not (p : Char → Bool) (l : List Char)
    (h : ∀ c ∈ l, p c = false) : l.dropWhile p = l := by
  cases l with
  | nil => rfl
  | cons c rest => simp [List.dropWhile_cons, h c (List.mem_cons_self c rest)]

theorem digit_not_ws (c : Char) (h : c.isDigit = true) : c.isWhitespace = false := by
  by_cases h1 : c = ' '
  · subst h1; exact absurd h (by decide)
  by_cases h2 : c = '\t'
  · subst h2; exact absurd h (by decide)
  by_cases h3 : c = '\r'
  · subst h3; exact absurd h (by decide)
  by_cases h4 : c = '\n'
  · subst h4; exact absurd h (by decide)
  show (c = ' ' || c = '\t' || c = '\r' || c = '\n') = false
  simp [h1, h2, h3, h4]

theorem trimChars_eq_self (l : List Char) (h : ∀ c ∈ l, c.isWhitespace = false) :
    trimChars l = l := by
  unfold trimChars
  rw [dropWhile_forall_not _ l h,
    dropWhile_forall_not _ l.reverse (fun c hc => h c (List.mem_reverse.1 hc)),
    List.reverse_reverse]

theorem digit_ne_of_not_digit (c : Char) (h : c.isDigit = true) (d : Char)
    (hd : d.isDigit = false) : c ≠ d := by
  intro e
  subst e
  rw [h] at hd
  cases hd

theorem parseSign_digit (l : List Char) (h : ∀ c ∈ l, c.isDigit = true) :
    parseSign l = (false, l) := by
  cases l with
  | nil => rfl
  | cons c rest =>
    have hc : c.isDigit = true := h c (List.mem_cons_self c rest)
    have h1 : c ≠ '-' := digit_ne_of_not_digit c hc '-' (by decide)
    have h2 : c ≠ '+' := digit_ne_of_not_digit c hc '+' (by decide)
    rw [parseSign.eq_def]
    split
    · rename_i heq
      cases heq
      exact absurd rfl h1
    · rename_i heq
      cases heq
      exact absurd rfl h2
    · rfl

theorem splitOnCharP_no_sep (p : Char → Bool) :
    ∀ (l : List Char), (∀ c ∈ l, p c = false) → splitOnCharP p l = [l] := by
  intro l
  induction l with
  | nil => intro _; rfl
  | cons c rest ih =>
    intro h
    have hc : p c = false := h c (List.mem_cons_self c rest)
    have hrest := ih (fun c' hc' => h c' (List.mem_cons_of_mem c hc'))
    simp [splitOnCharP, hc, hrest]

theorem splitOnCharP_sep (p : Char → Bool) (sep : Char) (hsep : p sep = true)
    (f : List Char) (hf : ∀ c ∈ f, p c = false) :
    ∀ (w : List Char), (∀ c ∈ w, p c = false) →
      splitOnCharP p (w ++ sep :: f) = [w, f] := by
  intro w
  induction w with
  | nil =>
    intro _
    simp [splitOnCharP, hsep, splitOnCharP_no_sep p f hf]
  | cons c w' ih =>
    intro h
    have hc : p c = false := h c (List.mem_cons_self c w')
    have hrest := ih (fun c' hc' => h c' (List.mem_cons_of_mem c hc'))
    simp [splitOnCharP, hc, hrest]

theorem parseIntChars_digits (w : List Char) (h : ∀ c ∈ w, c.isDigit = true)
    (hne : w ≠ []) : parseIntChars w = some (digitsVal w : ℤ) := by
  unfold parseIntChars
  rw [trimChars_eq_self w (fun c hc => digit_not_ws c (h c hc))]
  dsimp only
  rw [parseSign_digit w h]
  have hall : allDigits w = true := by
    simp [allDigits, List.all_eq_true]
    exact ⟨fun hnil => hne (by simpa [List.isEmpty_iff] using hnil), h⟩
  simp [hall]

/-! ## Claim theorems -/

/-- C1 (amended): missing numeric fields are coerced to 0 (int fields) and
0.0 (innings), but a present non-numeric value raises an uncaught exception;
`calculate_aggregate_stats` returns normally exactly when every present
numeric field of every line is coercible. -/
theorem calculate_coerces_iff_wellformed (games : List GameRecord) :
    ((∃ r, calculate_aggregate_stats games = .ok r) ↔
      ((∀ tl ∈ battingLinesOf games, batLineWF tl.2 = true) ∧
       (∀ tl ∈ pitchingLinesOf games, pitLineWF tl.2 = true))) ∧
    (∀ (team : String) (pid nm : Option String),
      convertBat team { player_id := pid, name := nm } =
        .ok { key := resolveKeyBat { player_id := pid, name := nm },
              player_name := nm.getD "Unknown", team := team,
              at_bats := 0, hits := 0, runs := 0, rbis := 0, doubles := 0, triples := 0,
              home_runs := 0, walks := 0, strikeouts := 0 }) ∧
    (∀ (team : String) (pid nm : Option String),
      convertPit team { player_id := pid, name := nm } =
        .ok { key := resolveKeyPit { player_id := pid, name := nm },
              player_name := nm.getD "Unknown", team := team,
              wins := 0, losses := 0, saves := 0, innings_pitched := 0, hits_allowed := 0,
              runs_allowed := 0, earned_runs := 0, walks_allowed := 0, strikeouts := 0,
              home_runs_allowed := 0 }) := by
  refine ⟨⟨?_, ?_⟩, ?_, ?_⟩
  · rintro ⟨⟨b, p⟩, h⟩
    obtain ⟨bm, pm, hall, _, _⟩ := calculate_ok_elim games b p h
    obtain ⟨bcs, pcs, hb, hp, _, _⟩ := (processAllGames_ok_iff games [] [] bm pm).1 hall
    exact ⟨(convertBatAll_ok_iff _).1 ⟨bcs, hb⟩, (convertPitAll_ok_iff _).1 ⟨pcs, hp⟩⟩
  · rintro ⟨hbat, hpit⟩
    obtain ⟨bcs, hb⟩ := (convertBatAll_ok_iff _).2 hbat
    obtain ⟨pcs, hp⟩ := (convertPitAll_ok_iff _).2 hpit
    have hall := (processAllGames_ok_iff games [] []
      (pureBatFold [] bcs) (purePitFold [] pcs)).2 ⟨bcs, pcs, hb, hp, rfl, rfl⟩
    exact ⟨_, calculate_eq_of_process games _ _ hall⟩
  · intro team pid nm; rfl
  · intro team pid nm; with_unfolding_all rfl

/-- C1 input with one malformed batting field. -/
def c1BadLine : BattingLine :=
  { player_id := some "9", name := some "X", at_bats := some (.pyStr "junk") }

/-- C1 game wrapping the malformed line. -/
def c1BadGame : GameRecord :=
  { home_team := some "H", home_team_batting := some [c1BadLine] }

/-- C1 counterexample: a single non-numeric `at_bats` value is not coerced
to 0 — `int("junk")` raises and the whole aggregation aborts. -/
theorem calculate_malformed_field_aborts :
    calculate_aggregate_stats [c1BadGame] =
      .error "invalid literal for int() with base 10: junk" ∧
    c1BadLine.at_bats = some (.pyStr "junk") :=
  ⟨by with_unfolding_all rfl, rfl⟩

/-- C1 witness input: well-formed, with one numeric-string field and many
missing fields. -/
def c1GoodGame : GameRecord :=
  { home_team := some "H",
    home_team_batting := some
      [{ player_id := some "1", name := some "A",
         at_bats := some (.pyInt 3), hits := some (.pyStr "2") }] }

/-- C1 witness. -/
theorem calculate_coerces_iff_wellformed_witness :
    ∃ r, calculate_aggregate_stats [c1GoodGame] = .ok r :=
  ((calculate_coerces_iff_wellformed [c1GoodGame]).1).2 ⟨by decide, by decide⟩

/-- C9: the aggregation is a pure function of the in-memory game list (its
input is only read through `dict.get`, never written), so two successive
calls on the same input return identical results. -/
theorem aggregation_deterministic (games : List GameRecord)
    (r₁ r₂ : Except String (List BatAcc × List PitAcc))
    (h₁ : calculate_aggregate_stats games = r₁)
    (h₂ : calculate_aggregate_stats games = r₂) : r₁ = r₂ := by
  rw [← h₁, ← h₂]

/-- C9 witness. -/
theorem aggregation_deterministic_witness :
    (Except.ok ([], []) : Except String (List BatAcc × List PitAcc)) = .ok ([], []) :=
  aggregation_deterministic [] (.ok ([], [])) (.ok ([], [])) rfl rfl

/-- C6: every returned batting record's `ops` is the 3-decimal rounding of
the sum of its own already-rounded `on_base_percentage` and
`slugging_percentage` fields. -/
theorem ops_sum_of_rounded (games : List GameRecord) (b : List BatAcc) (p : List PitAcc)
    (h : calculate_aggregate_stats games = .ok (b, p)) :
    ∀ r ∈ b, r.ops = roundTo 3 (r.on_base_percentage + r.slugging_percentage) := by
  obtain ⟨bm, pm, hall, hb, hp⟩ := calculate_ok_elim games b p h
  subst hb
  intro r hr
  simp only [_calculate_batting_averages, List.mem_map] at hr
  obtain ⟨kv, _, rfl⟩ := hr
  exact (computeBatDerived_derived kv.2).2.2.2

/-- C6 witness input. -/
def c6Game : GameRecord :=
  { home_team := some "H",
    home_team_batting := some
      [{ player_id := some "6", name := some "F", at_bats := some (.pyInt 4),
         hits := some (.pyInt 2), doubles := some (.pyInt 1),
         home_runs := some (.pyInt 1) }] }

/-- C6 witness. -/
theorem ops_sum_of_rounded_witness :
    ∃ b p, calculate_aggregate_stats [c6Game] = .ok (b, p) ∧
      ∀ r ∈ b, r.ops = roundTo 3 (r.on_base_percentage + r.slugging_percentage) := by
  cases h : calculate_aggregate_stats [c6Game] with
  | error e =>
    have hok : exOk (calculate_aggregate_stats [c6Game]) = true := by
      with_unfolding_all rfl
    rw [h] at hok
    exact absurd hok (by simp [exOk])
  | ok r =>
    obtain ⟨b, p⟩ := r
    exact ⟨b, p, rfl, ops_sum_of_rounded [c6Game] b p h⟩

/-- C2 (amended): with cumulative `at_bats = 0` the returned batting record
has `batting_average = slugging_percentage = 0.0`, and additionally
`on_base_percentage = ops = 0.0` when cumulative `walks` is also 0 (the
on-base guard is `at_bats + walks > 0`, not `at_bats > 0`); a pitcher with
cumulative `innings_pitched = 0.0` has `era = whip = 0.0`. -/
theorem zero_denominator_guards (games : List GameRecord) (b : List BatAcc)
    (p : List PitAcc) (h : calculate_aggregate_stats games = .ok (b, p)) :
    (∀ r ∈ b, r.at_bats = 0 → r.batting_average = 0 ∧ r.slugging_percentage = 0 ∧
      (r.walks = 0 → r.on_base_percentage = 0 ∧ r.ops = 0)) ∧
    (∀ r ∈ p, r.innings_pitched = 0 → r.era = 0 ∧ r.whip = 0) := by
  obtain ⟨bm, pm, hall, hb, hp⟩ := calculate_ok_elim games b p h
  obtain ⟨bcs, pcs, hbc, hpc, hbm, hpm⟩ := (processAllGames_ok_iff games [] [] bm pm).1 hall
  subst hb hp hbm hpm
  constructor
  · intro r hr hab
    simp only [_calculate_batting_averages, List.mem_map] at hr
    obtain ⟨kv, hkv, rfl⟩ := hr
    have hz := pureBatFold_derived_zero bcs kv hkv
    simp only [batDerived, Prod.mk.injEq] at hz
    obtain ⟨zba, zob, zsl, zop⟩ := hz
    obtain ⟨cba, cob, csl, cop⟩ := computeBatDerived_derived kv.2
    obtain ⟨_, _, _, cab, _, _, _, _, _, _, cw, _⟩ := computeBatDerived_counts kv.2
    rw [cab] at hab
    have hba : (computeBatDerived kv.2).batting_average = 0 := by
      rw [cba, hab]; simp [zba]
    have hsl : (computeBatDerived kv.2).slugging_percentage = 0 := by
      rw [csl, hab]; simp [zsl]
    refine ⟨hba, hsl, ?_⟩
    intro hw
    rw [cw] at hw
    have hob : (computeBatDerived kv.2).on_base_percentage = 0 := by
      rw [cob, hab, hw]; simp [zob]
    refine ⟨hob, ?_⟩
    rw [cop, hob, hsl, add_zero]
    exact roundTo_zero 3
  · intro r hr hip
    simp only [_calculate_pitching_averages, List.mem_map] at hr
    obtain ⟨kv, hkv, rfl⟩ := hr
    have hz := purePitFold_derived_zero pcs kv hkv
    simp only [pitDerived, Prod.mk.injEq] at hz
    obtain ⟨zer, zwh⟩ := hz
    obtain ⟨cer, cwh⟩ := computePitDerived_derived kv.2
    obtain ⟨_, _, _, _, _, _, cip, _, _, _, _, _, _⟩ := computePitDerived_counts kv.2
    rw [cip] at hip
    constructor
    · rw [cer, hip]; simp [zer]
    · rw [cwh, hip]; simp [zwh]

/-- C2 input: a walk with no at-bat. -/
def c2Game : GameRecord :=
  { home_team := some "T",
    home_team_batting := some
      [{ player_id := some "2", name := some "W", at_bats := some (.pyInt 0),
         walks := some (.pyInt 1) }] }

/-- C2 counterexample: a player with cumulative `at_bats = 0` but one walk
gets `on_base_percentage = 1.0`, not `0.0` — the on-base guard divides by
`at_bats + walks`. -/
theorem obp_nonzero_with_zero_at_bats :
    (calculate_aggregate_stats [c2Game]).toOption.map
        (fun rp => rp.1.map (fun r => (r.at_bats, r.on_base_percentage))) =
      some [(0, 1)] ∧ (1 : ℚ) ≠ 0 :=
  ⟨by with_unfolding_all rfl, by norm_num⟩

/-- C2 witness input: an all-zero batter and an innings-free pitcher. -/
def c2WGame : GameRecord :=
  { away_team := some "A",
    away_team_batting := some
      [{ player_id := some "2w", name := some "Z", strikeouts := some (.pyInt 1) }],
    home_team_pitching := some [{ player_id := some "2p", name := some "Q" }] }

/-- C2 witness. -/
theorem zero_denominator_guards_witness :
    ∃ b p, calculate_aggregate_stats [c2WGame] = .ok (b, p) ∧
      (∀ r ∈ b, r.at_bats = 0 → r.batting_average = 0 ∧ r.slugging_percentage = 0 ∧
        (r.walks = 0 → r.on_base_percentage = 0 ∧ r.ops = 0)) ∧
      (∀ r ∈ p, r.innings_pitched = 0 → r.era = 0 ∧ r.whip = 0) := by
  cases h : calculate_aggregate_stats [c2WGame] with
  | error e =>
    have hok : exOk (calculate_aggregate_stats [c2WGame]) = true := by
      with_unfolding_all rfl
    rw [h] at hok
    exact absurd hok (by simp [exOk])
  | ok r =>
    obtain ⟨b, p⟩ := r
    exact ⟨b, p, rfl, (zero_denominator_guards [c2WGame] b p h).1,
      (zero_denominator_guards [c2WGame] b p h).2⟩

/-- C4 (amended): the innings parser maps `"6.1"` to `6 + 1/3`, `"6.2"` to
`6 + 2/3`, `"6"` and `"6.0"` to `6`; for every digit-string whole part and
digit-string fractional part it returns whole + int(fraction)/3 (which for a
single fractional digit is that digit divided by 3); a missing input or a
non-numeric input without a dot parses to 0.0; but a dotted string whose
whole part parses while its fractional part is non-numeric keeps the whole
part (fraction contributes 0), e.g. `"6.abc"` parses to 6.0, not 0.0. -/
theorem parse_innings_spec :
    parse_innings (some "6.1") = 6 + 1 / 3 ∧
    parse_innings (some "6.2") = 6 + 2 / 3 ∧
    parse_innings (some "6") = 6 ∧
    parse_innings (some "6.0") = 6 ∧
    (∀ w f : List Char, (∀ c ∈ w, c.isDigit = true) → w ≠ [] →
      (∀ c ∈ f, c.isDigit = true) → f ≠ [] →
      parse_innings (some (String.mk (w ++ '.' :: f))) =
        (digitsVal w : ℚ) + (digitsVal f : ℚ) / 3) ∧
    parse_innings none = 0 ∧
    (∀ s : String, ¬ s.toList.contains '.' = true → parseFloatChars s.toList = none →
      parse_innings (some s) = 0) ∧
    parse_innings (some "6.abc") = 6 := by
  refine ⟨by with_unfolding_all rfl, by with_unfolding_all rfl, by with_unfolding_all rfl,
    by with_unfolding_all rfl, ?_, rfl, ?_, by with_unfolding_all rfl⟩
  · intro w f hw hwne hf hfne
    have hne : ¬ (String.mk (w ++ '.' :: f) = "") := by
      intro e
      have hd := congrArg String.data e
      simp at hd
    have hmem : ('.' : Char) ∈ w ++ '.' :: f :=
      List.mem_append_right w (List.mem_cons_self _ _)
    have hcontains : (w ++ '.' :: f).contains '.' = true := by
      simpa [List.contains] using hmem
    have hwdot : ∀ c ∈ w, (decide (c = '.')) = false := by
      intro c hc
      simp [digit_ne_of_not_digit c (hw c hc) '.' (by decide)]
    have hfdot : ∀ c ∈ f, (decide (c = '.')) = false := by
      intro c hc
      simp [digit_ne_of_not_digit c (hf c hc) '.' (by decide)]
    have hsplit : splitOnCharP (fun c => c = '.') (w ++ '.' :: f) = [w, f] :=
      splitOnCharP_sep (fun c => decide (c = '.')) '.' (by decide) f hfdot w hwdot
    have hint : parseIntChars w = some (digitsVal w : ℤ) := parseIntChars_digits w hw hwne
    have hwempty : w.isEmpty = false := by
      cases w with
      | nil => exact absurd rfl hwne
      | cons a w' => rfl
    simp only [parse_innings, if_neg hne]
    have htl : (String.mk (w ++ '.' :: f)).toList = w ++ '.' :: f := rfl
    rw [htl, if_pos hcontains, hsplit]
    dsimp only
    rw [hwempty]
    simp only [Bool.false_eq_true, if_false, hint]
    by_cases h1 : f = ['1']
    · subst h1
      have hd : ('1'.toNat - 48 : ℕ) = 1 := by decide
      simp [digitsVal, hd]
    · by_cases h2 : f = ['2']
      · subst h2
        have hd : ('2'.toNat - 48 : ℕ) = 2 := by decide
        simp [digitsVal, hd]
      · have hall : allDigits f = true := by
          simp [allDigits, List.all_eq_true]
          exact ⟨fun hnil => hfne (by simpa [List.isEmpty_iff] using hnil), hf⟩
        simp [h1, h2, hall]
  · intro s hdot hfloat
    by_cases hs : s = ""
    · subst hs; rfl
    · have hdot' : s.toList.contains '.' = false := by
        cases h' : s.toList.contains '.' with
        | false => rfl
        | true => exact absurd h' hdot
      simp only [parse_innings, if_neg hs]
      rw [hdot']
      simp only [Bool.false_eq_true, if_false, hfloat]

/-- C4 counterexample: `"6.abc"` is non-numeric (Python `float` rejects it)
yet `parse_innings` returns 6.0, not 0.0. -/
theorem parse_innings_nonnumeric_dot :
    parse_innings (some "6.abc") = 6 ∧
    parseFloatChars "6.abc".toList = none ∧ (6 : ℚ) ≠ 0 :=
  ⟨by with_unfolding_all rfl, by rfl, by norm_num⟩

/-- C4 witness. -/
theorem parse_innings_spec_witness :
    parse_innings (some (String.mk (['7'] ++ '.' :: ['5']))) =
      (digitsVal ['7'] : ℚ) + (digitsVal ['5'] : ℚ) / 3 :=
  parse_innings_spec.2.2.2.2.1 ['7'] ['5'] (by decide) (by decide) (by decide) (by decide)

/-- C3 (amended): the accumulation key is the line's `player_id` whenever
that field is present — even when it is empty — because `dict.get` falls
back only for an absent key; an absent `player_id` synthesizes
`"unknown_" ++ name` (name itself defaulting to `"unnamed"`); and a map
entry exists for a key exactly when some processed line resolves to it, so
repeated appearances with one resolved key accumulate together. -/
theorem player_key_resolution (games : List GameRecord) (bm : List (String × BatAcc))
    (pm : List (String × PitAcc)) (h : processAllGames games [] [] = .ok (bm, pm)) :
    (∀ l : BattingLine, resolveKeyBat l =
      (match l.player_id with
       | some s => s
       | none => "unknown_" ++ l.name.getD "unnamed")) ∧
    (∀ l : PitchingLine, resolveKeyPit l =
      (match l.player_id with
       | some s => s
       | none => "unknown_" ++ l.name.getD "unnamed")) ∧
    (∀ k, (dget bm k).isSome = true ↔
      ∃ tl ∈ battingLinesOf games, resolveKeyBat tl.2 = k) ∧
    (∀ k, (dget pm k).isSome = true ↔
      ∃ tl ∈ pitchingLinesOf games, resolveKeyPit tl.2 = k) := by
  obtain ⟨bcs, pcs, hbc, hpc, hbm, hpm⟩ := (processAllGames_ok_iff games [] [] bm pm).1 h
  subst hbm hpm
  have hwfb : ∀ tl ∈ battingLinesOf games, batLineWF tl.2 = true :=
    (convertBatAll_ok_iff _).1 ⟨bcs, hbc⟩
  have hwfp : ∀ tl ∈ pitchingLinesOf games, pitLineWF tl.2 = true :=
    (convertPitAll_ok_iff _).1 ⟨pcs, hpc⟩
  have hmapb : bcs = (battingLinesOf games).map convertBatD := convertBatAll_eq_map hbc
  have hmapp : pcs = (pitchingLinesOf games).map convertPitD := convertPitAll_eq_map hpc
  refine ⟨?_, ?_, ?_, ?_⟩
  · intro l; cases hl : l.player_id <;> simp [resolveKeyBat, hl]
  · intro l; cases hl : l.player_id <;> simp [resolveKeyPit, hl]
  · intro k
    have hiff : (∃ c ∈ bcs, c.key == k) ↔
        ∃ tl ∈ battingLinesOf games, resolveKeyBat tl.2 = k := by
      subst hmapb
      constructor
      · rintro ⟨c, hc, hck⟩
        obtain ⟨tl, htl, rfl⟩ := List.mem_map.1 hc
        refine ⟨tl, htl, ?_⟩
        rw [← (convertBatD_fields (hwfb tl htl)).1]
        exact beq_iff_eq.1 hck
      · rintro ⟨tl, htl, hk⟩
        exact ⟨convertBatD tl, List.mem_map_of_mem _ htl,
          by rw [(convertBatD_fields (hwfb tl htl)).1]; simp [hk]⟩
    rw [dget_pureBatFold]
    by_cases hfil : bcs.filter (fun c => c.key == k) = []
    · rw [if_pos hfil]
      rw [List.filter_eq_nil_iff] at hfil
      refine iff_of_false (by simp [dget]) ?_
      rw [← hiff]
      rintro ⟨c, hc, hck⟩
      exact hfil c hc hck
    · rw [if_neg hfil]
      refine iff_of_true rfl ?_
      rw [← hiff]
      obtain ⟨c, hc⟩ := List.exists_mem_of_ne_nil _ hfil
      exact ⟨c, List.mem_of_mem_filter hc, (List.mem_filter.1 hc).2⟩
  · intro k
    have hiff : (∃ c ∈ pcs, c.key == k) ↔
        ∃ tl ∈ pitchingLinesOf games, resolveKeyPit tl.2 = k := by
      subst hmapp
      constructor
      · rintro ⟨c, hc, hck⟩
        obtain ⟨tl, htl, rfl⟩ := List.mem_map.1 hc
        refine ⟨tl, htl, ?_⟩
        rw [← (convertPitD_fields (hwfp tl htl)).1]
        exact beq_iff_eq.1 hck
      · rintro ⟨tl, htl, hk⟩
        exact ⟨convertPitD tl, List.mem_map_of_mem _ htl,
          by rw [(convertPitD_fields (hwfp tl htl)).1]; simp [hk]⟩
    rw [dget_purePitFold]
    by_cases hfil : pcs.filter (fun c => c.key == k) = []
    · rw [if_pos hfil]
      rw [List.filter_eq_nil_iff] at hfil
      refine iff_of_false (by simp [dget]) ?_
      rw [← hiff]
      rintro ⟨c, hc, hck⟩
      exact hfil c hc hck
    · rw [if_neg hfil]
      refine iff_of_true rfl ?_
      rw [← hiff]
      obtain ⟨c, hc⟩ := List.exists_mem_of_ne_nil _ hfil
      exact ⟨c, List.mem_of_mem_filter hc, (List.mem_filter.1 hc).2⟩

/-- C3 input: a present-but-empty `player_id`. -/
def c3Line : BattingLine :=
  { player_id := some "", name := some "Bob", at_bats := some (.pyInt 1) }

/-- C3 game wrapping that line. -/
def c3Game : GameRecord :=
  { home_team := some "T", home_team_batting := some [c3Line] }

/-- C3 counterexample: a present empty `player_id` is used as the key
verbatim — the `unknown_`-name fallback is not applied, contradicting
"present and non-empty". -/
theorem empty_player_id_key_used :
    resolveKeyBat c3Line = "" ∧ ("" : String) ≠ "unknown_Bob" ∧
    (processAllGames [c3Game] [] []).toOption.map
        (fun mp => ((dget mp.1 "").isSome, (dget mp.1 "unknown_Bob").isSome)) =
      some (true, false) :=
  ⟨rfl, by decide, by with_unfolding_all rfl⟩

/-- C3 witness input. -/
def c3WGame : GameRecord :=
  { home_team := some "T",
    home_team_batting := some
      [{ player_id := some "42", name := some "Ann", hits := some (.pyInt 1) }] }

/-- C3 witness. -/
theorem player_key_resolution_witness :
    ∃ bm pm, processAllGames [c3WGame] [] [] = .ok (bm, pm) ∧
      ((dget bm "42").isSome = true ↔
        ∃ tl ∈ battingLinesOf [c3WGame], resolveKeyBat tl.2 = "42") := by
  cases h : processAllGames [c3WGame] [] [] with
  | error e =>
    have hok : exOk (processAllGames [c3WGame] [] []) = true := by
      with_unfolding_all rfl
    rw [h] at hok
    exact absurd hok (by simp [exOk])
  | ok r =>
    obtain ⟨bm, pm⟩ := r
    exact ⟨bm, pm, rfl, (player_key_resolution [c3WGame] bm pm h).2.2.1 "42"⟩

/-- C7: for every accumulation key, the `player_name` and `team` stored in
the final record are the ones written by the last processed line resolving
to that key (last-write-wins, team being the home/away side of that line's
game); this holds for batting and pitching alike. -/
theorem name_team_last_write_wins (games : List GameRecord)
    (bm : List (String × BatAcc)) (pm : List (String × PitAcc))
    (h : processAllGames games [] [] = .ok (bm, pm)) :
    calculate_aggregate_stats games =
      .ok (_calculate_batting_averages bm, _calculate_pitching_averages pm) ∧
    (∀ k (tl : String × BattingLine),
      ((battingLinesOf games).filter (fun tl => resolveKeyBat tl.2 == k)).getLast? =
        some tl →
      (dget bm k).map (fun s => (s.player_name, s.team)) =
        some (tl.2.name.getD "Unknown", tl.1)) ∧
    (∀ k (tl : String × PitchingLine),
      ((pitchingLinesOf games).filter (fun tl => resolveKeyPit tl.2 == k)).getLast? =
        some tl →
      (dget pm k).map (fun s => (s.player_name, s.team)) =
        some (tl.2.name.getD "Unknown", tl.1)) := by
  obtain ⟨bcs, pcs, hbc, hpc, hbm, hpm⟩ := (processAllGames_ok_iff games [] [] bm pm).1 h
  subst hbm hpm
  have hwfb : ∀ tl ∈ battingLinesOf games, batLineWF tl.2 = true :=
    (convertBatAll_ok_iff _).1 ⟨bcs, hbc⟩
  have hwfp : ∀ tl ∈ pitchingLinesOf games, pitLineWF tl.2 = true :=
    (convertPitAll_ok_iff _).1 ⟨pcs, hpc⟩
  have hmapb : bcs = (battingLinesOf games).map convertBatD := convertBatAll_eq_map hbc
  have hmapp : pcs = (pitchingLinesOf games).map convertPitD := convertPitAll_eq_map hpc
  refine ⟨calculate_eq_of_process games _ _ h, ?_, ?_⟩
  · intro k tl hlast
    have htl_mem : tl ∈ battingLinesOf games :=
      List.mem_of_mem_filter (List.mem_of_mem_getLast? hlast)
    have hfeq : bcs.filter (fun c => c.key == k) =
        ((battingLinesOf games).filter
          (fun tl => resolveKeyBat tl.2 == k)).map convertBatD := by
      subst hmapb
      rw [List.filter_map]
      congr 1
      apply List.filter_congr
      intro tl' h'
      simp only [Function.comp_apply]
      rw [(convertBatD_fields (hwfb tl' h')).1]
    have hne : bcs.filter (fun c => c.key == k) ≠ [] := by
      rw [hfeq]
      intro e
      rw [List.map_eq_nil_iff] at e
      rw [e] at hlast
      cases hlast
    have hlast' : (bcs.filter (fun c => c.key == k)).getLast? =
        some (convertBatD tl) := by
      rw [hfeq, List.getLast?_map, hlast, Option.map_some']
    rw [dget_pureBatFold, if_neg hne, Option.map_some']
    have hproj := foldl_app_last applyCBat (fun s => (s.player_name, s.team))
      (fun c => (c.player_name, c.team)) (fun _ _ => rfl)
      (bcs.filter (fun c => c.key == k)) ((dget ([] : List (String × BatAcc)) k).getD batInit)
      (convertBatD tl) hlast'
    obtain ⟨_, hn, ht⟩ := convertBatD_fields (hwfb tl htl_mem)
    simpa only [hn, ht] using congrArg some hproj
  · intro k tl hlast
    have htl_mem : tl ∈ pitchingLinesOf games :=
      List.mem_of_mem_filter (List.mem_of_mem_getLast? hlast)
    have hfeq : pcs.filter (fun c => c.key == k) =
        ((pitchingLinesOf games).filter
          (fun tl => resolveKeyPit tl.2 == k)).map convertPitD := by
      subst hmapp
      rw [List.filter_map]
      congr 1
      apply List.filter_congr
      intro tl' h'
      simp only [Function.comp_apply]
      rw [(convertPitD_fields (hwfp tl' h')).1]
    have hne : pcs.filter (fun c => c.key == k) ≠ [] := by
      rw [hfeq]
      intro e
      rw [List.map_eq_nil_iff] at e
      rw [e] at hlast
      cases hlast
    have hlast' : (pcs.filter (fun c => c.key == k)).getLast? =
        some (convertPitD tl) := by
      rw [hfeq, List.getLast?_map, hlast, Option.map_some']
    rw [dget_purePitFold, if_neg hne, Option.map_some']
    have hproj := foldl_app_last applyCPit (fun s => (s.player_name, s.team))
      (fun c => (c.player_name, c.team)) (fun _ _ => rfl)
      (pcs.filter (fun c => c.key == k)) ((dget ([] : List (String × PitAcc)) k).getD pitInit)
      (convertPitD tl) hlast'
    obtain ⟨_, hn, ht⟩ := convertPitD_fields (hwfp tl htl_mem)
    simpa only [hn, ht] using congrArg some hproj

/-- C7 witness input: two games, same key, different name and team side. -/
def c7Games : List GameRecord :=
  [{ home_team := some "T1",
     home_team_batting := some
       [{ player_id := some "7", name := some "Old", hits := some (.pyInt 1) }] },
   { away_team := some "T2",
     away_team_batting := some
       [{ player_id := some "7", name := some "New", hits := some (.pyInt 2) }] }]

/-- C7 witness. -/
theorem name_team_last_write_wins_witness :
    ∃ bm pm, processAllGames c7Games [] [] = .ok (bm, pm) ∧
      (dget bm "7").map (fun s => (s.player_name, s.team)) = some ("New", "T2") := by
  cases h : processAllGames c7Games [] [] with
  | error e =>
    have hok : exOk (processAllGames c7Games [] []) = true := by
      with_unfolding_all rfl
    rw [h] at hok
    exact absurd hok (by simp [exOk])
  | ok r =>
    obtain ⟨bm, pm⟩ := r
    refine ⟨bm, pm, rfl, ?_⟩
    have happ := (name_team_last_write_wins c7Games bm pm h).2.1 "7"
      ("T2", { player_id := some "7", name := some "New", hits := some (.pyInt 2) })
      (by with_unfolding_all rfl)
    simpa using happ

/-- C8: in the batting result, each player's `games` field equals the number
of batting lines (home and away, across all games) whose resolved key is
that player's key; the finalization pass preserves the field and emits one
record per map entry. -/
theorem games_counts_batting_lines (games : List GameRecord)
    (bm : List (String × BatAcc)) (pm : List (String × PitAcc))
    (h : processAllGames games [] [] = .ok (bm, pm)) :
    calculate_aggregate_stats games =
      .ok (_calculate_batting_averages bm, _calculate_pitching_averages pm) ∧
    ∀ k s, dget bm k = some s →
      s.games = ((battingLinesOf games).countP (fun tl => resolveKeyBat tl.2 == k) : ℤ) ∧
      (computeBatDerived s).games = s.games ∧
      computeBatDerived s ∈ _calculate_batting_averages bm := by
  obtain ⟨bcs, pcs, hbc, hpc, hbm, hpm⟩ := (processAllGames_ok_iff games [] [] bm pm).1 h
  have hwfb : ∀ tl ∈ battingLinesOf games, batLineWF tl.2 = true :=
    (convertBatAll_ok_iff _).1 ⟨bcs, hbc⟩
  have hmapb : bcs = (battingLinesOf games).map convertBatD := convertBatAll_eq_map hbc
  refine ⟨calculate_eq_of_process games _ _ h, ?_⟩
  intro k s hks
  have hmem : (k, s) ∈ bm := dget_mem bm k s hks
  subst hbm
  rw [dget_pureBatFold] at hks
  by_cases hfil : bcs.filter (fun c => c.key == k) = []
  · rw [if_pos hfil] at hks
    cases hks
  · rw [if_neg hfil] at hks
    have hs : s = (bcs.filter (fun c => c.key == k)).foldl applyCBat
        ((dget ([] : List (String × BatAcc)) k).getD batInit) := by
      cases hks
      rfl
    have hgames := foldl_app_proj applyCBat (fun a => a.games) (fun _ => (1 : ℤ))
      (fun _ _ => rfl) (bcs.filter (fun c => c.key == k))
      ((dget ([] : List (String × BatAcc)) k).getD batInit)
    have hsum : ((bcs.filter (fun c => c.key == k)).map (fun _ => (1 : ℤ))).sum =
        ((bcs.filter (fun c => c.key == k)).length : ℤ) := by
      rw [List.map_const', List.sum_replicate]
      simp
    have hfeq : bcs.filter (fun c => c.key == k) =
        ((battingLinesOf games).filter
          (fun tl => resolveKeyBat tl.2 == k)).map convertBatD := by
      subst hmapb
      rw [List.filter_map]
      congr 1
      apply List.filter_congr
      intro tl' h'
      simp only [Function.comp_apply]
      rw [(convertBatD_fields (hwfb tl' h')).1]
    refine ⟨?_, (computeBatDerived_counts s).2.2.1, ?_⟩
    · rw [hs, hgames, hsum, hfeq, List.length_map, ← List.countP_eq_length_filter]
      simp [dget, batInit]
    · simp only [_calculate_batting_averages, List.mem_map]
      exact ⟨(k, s), hmem, rfl⟩

/-- C8 witness input: the same `player_id` on both sides of two games. -/
def c8Games : List GameRecord :=
  [{ home_team := some "A",
     home_team_batting := some
       [{ player_id := some "8", name := some "P", at_bats := some (.pyInt 3) }] },
   { away_team := some "B",
     away_team_batting := some
       [{ player_id := some "8", name := some "P", at_bats := some (.pyInt 4) }] }]

/-- C8 witness. -/
theorem games_counts_batting_lines_witness :
    ∃ bm pm s, processAllGames c8Games [] [] = .ok (bm, pm) ∧
      dget bm "8" = some s ∧
      s.games = ((battingLinesOf c8Games).countP
        (fun tl => resolveKeyBat tl.2 == "8") : ℤ) := by
  cases h : processAllGames c8Games [] [] with
  | error e =>
    have hok : exOk (processAllGames c8Games [] []) = true := by
      with_unfolding_all rfl
    rw [h] at hok
    exact absurd hok (by simp [exOk])
  | ok r =>
    obtain ⟨bm, pm⟩ := r
    have h1 : ((processAllGames c8Games [] []).toOption.map
        (fun mp => (dget mp.1 "8").isSome)) = some true := by
      with_unfolding_all rfl
    rw [h] at h1
    simp only [Except.toOption, Option.map_some'] at h1
    obtain ⟨s, hs⟩ := Option.isSome_iff_exists.1 (by injection h1)
    exact ⟨bm, pm, s, rfl, hs,
      ((games_counts_batting_lines c8Games bm pm h).2 "8" s hs).1⟩

/-- C10: `get_team_summary` counts each game once for its home team and once
for its away team in `games_seen`, credits one win to the higher-scoring and
one loss to the lower-scoring team when the scores differ, and leaves wins
and losses untouched on a tie — so summed over all teams, wins = losses =
the number of non-tied games. -/
theorem team_summary_characterization (games : List GameRecord)
    (tgs : List (String × String × ℤ × ℤ)) (h : toTeamGames games = .ok tgs) :
    get_team_summary games = .ok (pureTeamFold [] tgs) ∧
    (∀ t,
      (getTeam (pureTeamFold [] tgs) t).games_seen =
        (tgs.countP (fun tg => tg.1 == t) : ℤ) +
          (tgs.countP (fun tg => tg.2.1 == t) : ℤ) ∧
      (getTeam (pureTeamFold [] tgs) t).wins = (tgs.countP (winIndicator t) : ℤ) ∧
      (getTeam (pureTeamFold [] tgs) t).losses = (tgs.countP (lossIndicator t) : ℤ)) ∧
    sumTeamBy (fun r => r.wins) (pureTeamFold [] tgs) =
      (tgs.countP (fun tg => !(tg.2.2.1 == tg.2.2.2)) : ℤ) ∧
    sumTeamBy (fun r => r.losses) (pureTeamFold [] tgs) =
      (tgs.countP (fun tg => !(tg.2.2.1 == tg.2.2.2)) : ℤ) := by
  refine ⟨?_, ?_, ?_, ?_⟩
  · show teamFold games [] = _
    rw [teamFold_stage, h]
    rfl
  · intro t
    have hchar := getTeam_pureTeamFold tgs [] t
    have hinit : getTeam [] t = teamInit := rfl
    refine ⟨?_, ?_, ?_⟩
    · rw [hchar.2.2, hinit]; simp [teamInit]
    · rw [hchar.1, hinit]; simp [teamInit]
    · rw [hchar.2.1, hinit]; simp [teamInit]
  · rw [(sums_pureTeamFold tgs []).1]; simp [sumTeamBy]
  · rw [(sums_pureTeamFold tgs []).2]; simp [sumTeamBy]

/-- C10 witness input: one decisive game and one tie. -/
def c10Games : List GameRecord :=
  [{ home_team := some "X", away_team := some "Y",
     home_score := some (.pyInt 5), away_score := some (.pyInt 3) },
   { home_team := some "X", away_team := some "Y",
     home_score := some (.pyInt 2), away_score := some (.pyInt 2) }]

/-- C10 witness. -/
theorem team_summary_characterization_witness :
    ∃ tgs, toTeamGames c10Games = .ok tgs ∧
      sumTeamBy (fun r => r.wins) (pureTeamFold [] tgs) =
        (tgs.countP (fun tg => !(tg.2.2.1 == tg.2.2.2)) : ℤ) := by
  cases h : toTeamGames c10Games with
  | error e =>
    have hok : exOk (toTeamGames c10Games) = true := by decide
    rw [h] at hok
    exact absurd hok (by simp [exOk])
  | ok tgs =>
    exact ⟨tgs, rfl, (team_summary_characterization c10Games tgs h).2.2.1⟩

/-- Per-key permutation invariance of the batting fold: equal totals, and
equal derived statistics after finalization. -/
theorem pureBatFold_perm (bcs₁ bcs₂ : List CBat) (hp : bcs₁.Perm bcs₂) (k : String) :
    (dget (pureBatFold [] bcs₁) k).map batTotals =
      (dget (pureBatFold [] bcs₂) k).map batTotals ∧
    (dget (pureBatFold [] bcs₁) k).map (fun s => batDerived (computeBatDerived s)) =
      (dget (pureBatFold [] bcs₂) k).map (fun s => batDerived (computeBatDerived s)) := by
  have hf : (bcs₁.filter (fun c => c.key == k)).Perm
      (bcs₂.filter (fun c => c.key == k)) := hp.filter _
  rw [dget_pureBatFold, dget_pureBatFold]
  by_cases hfil : bcs₁.filter (fun c => c.key == k) = []
  · have hfil₂ : bcs₂.filter (fun c => c.key == k) = [] := by
      rw [hfil] at hf
      exact hf.symm.eq_nil
    rw [if_pos hfil, if_pos hfil₂]
    exact ⟨rfl, rfl⟩
  · have hfil₂ : ¬ bcs₂.filter (fun c => c.key == k) = [] := by
      intro e
      rw [e] at hf
      exact hfil hf.eq_nil
    rw [if_neg hfil, if_neg hfil₂]
    have htot : batTotals ((bcs₁.filter (fun c => c.key == k)).foldl applyCBat
        ((dget ([] : List (String × BatAcc)) k).getD batInit)) =
        batTotals ((bcs₂.filter (fun c => c.key == k)).foldl applyCBat
          ((dget ([] : List (String × BatAcc)) k).getD batInit)) := by
      rw [batTotals_foldl, batTotals_foldl, (hf.map cbatTotals).sum_eq]
    have hz₁ : batDerived ((bcs₁.filter (fun c => c.key == k)).foldl applyCBat
        ((dget ([] : List (String × BatAcc)) k).getD batInit)) = (0, 0, 0, 0) :=
      (foldl_app_const applyCBat batDerived (fun _ _ => rfl) _ _).trans rfl
    have hz₂ : batDerived ((bcs₂.filter (fun c => c.key == k)).foldl applyCBat
        ((dget ([] : List (String × BatAcc)) k).getD batInit)) = (0, 0, 0, 0) :=
      (foldl_app_const applyCBat batDerived (fun _ _ => rfl) _ _).trans rfl
    constructor
    · rw [Option.map_some', Option.map_some', htot]
    · rw [Option.map_some', Option.map_some', batDerived_congr _ _ htot hz₁ hz₂]

/-- Per-key permutation invariance of the pitching fold. -/
theorem purePitFold_perm (pcs₁ pcs₂ : List CPit) (hp : pcs₁.Perm pcs₂) (k : String) :
    (dget (purePitFold [] pcs₁) k).map pitTotals =
      (dget (purePitFold [] pcs₂) k).map pitTotals ∧
    (dget (purePitFold [] pcs₁) k).map (fun s => pitDerived (computePitDerived s)) =
      (dget (purePitFold [] pcs₂) k).map (fun s => pitDerived (computePitDerived s)) := by
  have hf : (pcs₁.filter (fun c => c.key == k)).Perm
      (pcs₂.filter (fun c => c.key == k)) := hp.filter _
  rw [dget_purePitFold, dget_purePitFold]
  by_cases hfil : pcs₁.filter (fun c => c.key == k) = []
  · have hfil₂ : pcs₂.filter (fun c => c.key == k) = [] := by
      rw [hfil] at hf
      exact hf.symm.eq_nil
    rw [if_pos hfil, if_pos hfil₂]
    exact ⟨rfl, rfl⟩
  · have hfil₂ : ¬ pcs₂.filter (fun c => c.key == k) = [] := by
      intro e
      rw [e] at hf
      exact hfil hf.eq_nil
    rw [if_neg hfil, if_neg hfil₂]
    have htot : pitTotals ((pcs₁.filter (fun c => c.key == k)).foldl applyCPit
        ((dget ([] : List (String × PitAcc)) k).getD pitInit)) =
        pitTotals ((pcs₂.filter (fun c => c.key == k)).foldl applyCPit
          ((dget ([] : List (String × PitAcc)) k).getD pitInit)) := by
      rw [pitTotals_foldl, pitTotals_foldl, (hf.map cpitTotals).sum_eq]
    have hz₁ : pitDerived ((pcs₁.filter (fun c => c.key == k)).foldl applyCPit
        ((dget ([] : List (String × PitAcc)) k).getD pitInit)) = (0, 0) :=
      (foldl_app_const applyCPit pitDerived (fun _ _ => rfl) _ _).trans rfl
    have hz₂ : pitDerived ((pcs₂.filter (fun c => c.key == k)).foldl applyCPit
        ((dget ([] : List (String × PitAcc)) k).getD pitInit)) = (0, 0) :=
      (foldl_app_const applyCPit pitDerived (fun _ _ => rfl) _ _).trans rfl
    constructor
    · rw [Option.map_some', Option.map_some', htot]
    · rw [Option.map_some', Option.map_some', pitDerived_congr _ _ htot hz₁ hz₂]

/-- C5: permuting the input game sequence changes no player's cumulative
counting totals (including the rational-model float `innings_pitched` sum)
and no derived statistic, for batting and pitching alike (the name/team
fields, which are last-write-wins, are outside this statement). -/
theorem aggregation_order_independent (gs₁ gs₂ : List GameRecord)
    (bm₁ : List (String × BatAcc)) (pm₁ : List (String × PitAcc))
    (bm₂ : List (String × BatAcc)) (pm₂ : List (String × PitAcc))
    (hperm : gs₁.Perm gs₂)
    (h₁ : processAllGames gs₁ [] [] = .ok (bm₁, pm₁))
    (h₂ : processAllGames gs₂ [] [] = .ok (bm₂, pm₂)) :
    calculate_aggregate_stats gs₁ =
      .ok (_calculate_batting_averages bm₁, _calculate_pitching_averages pm₁) ∧
    calculate_aggregate_stats gs₂ =
      .ok (_calculate_batting_averages bm₂, _calculate_pitching_averages pm₂) ∧
    ∀ k,
      (dget bm₁ k).map batTotals = (dget bm₂ k).map batTotals ∧
      (dget bm₁ k).map (fun s => batDerived (computeBatDerived s)) =
        (dget bm₂ k).map (fun s => batDerived (computeBatDerived s)) ∧
      (dget pm₁ k).map pitTotals = (dget pm₂ k).map pitTotals ∧
      (dget pm₁ k).map (fun s => pitDerived (computePitDerived s)) =
        (dget pm₂ k).map (fun s => pitDerived (computePitDerived s)) := by
  obtain ⟨bcs₁, pcs₁, hbc₁, hpc₁, hbm₁, hpm₁⟩ :=
    (processAllGames_ok_iff gs₁ [] [] bm₁ pm₁).1 h₁
  obtain ⟨bcs₂, pcs₂, hbc₂, hpc₂, hbm₂, hpm₂⟩ :=
    (processAllGames_ok_iff gs₂ [] [] bm₂ pm₂).1 h₂
  have hlb : (battingLinesOf gs₁).Perm (battingLinesOf gs₂) :=
    hperm.flatMap_right gameBatLines
  have hlp : (pitchingLinesOf gs₁).Perm (pitchingLinesOf gs₂) :=
    hperm.flatMap_right gamePitLines
  have hcb : bcs₁.Perm bcs₂ := by
    rw [convertBatAll_eq_map hbc₁, convertBatAll_eq_map hbc₂]
    exact hlb.map convertBatD
  have hcp : pcs₁.Perm pcs₂ := by
    rw [convertPitAll_eq_map hpc₁, convertPitAll_eq_map hpc₂]
    exact hlp.map convertPitD
  subst hbm₁ hpm₁ hbm₂ hpm₂
  refine ⟨calculate_eq_of_process gs₁ _ _ h₁, calculate_eq_of_process gs₂ _ _ h₂, ?_⟩
  intro k
  exact ⟨(pureBatFold_perm bcs₁ bcs₂ hcb k).1, (pureBatFold_perm bcs₁ bcs₂ hcb k).2,
    (purePitFold_perm pcs₁ pcs₂ hcp k).1, (purePitFold_perm pcs₁ pcs₂ hcp k).2⟩

/-- C5 witness input: two games in one order... -/
def c5GameA : GameRecord :=
  { home_team := some "A",
    home_team_batting := some
      [{ player_id := some "5", name := some "P", at_bats := some (.pyInt 3),
         hits := some (.pyInt 1) }],
    home_team_pitching := some
      [{ player_id := some "5p", name := some "R", innings_pitched := some (.pyStr "6.1"),
         earned_runs := some (.pyInt 2) }] }

/-- ... and the second game. -/
def c5GameB : GameRecord :=
  { away_team := some "B",
    away_team_batting := some
      [{ player_id := some "5", name := some "P", at_bats := some (.pyInt 4),
         hits := some (.pyInt 2) }],
    away_team_pitching := some
      [{ player_id := some "5p", name := some "R", innings_pitched := some (.pyStr "2.2"),
         earned_runs := some (.pyInt 1) }] }

/-- C5 witness. -/
theorem aggregation_order_independent_witness :
    ∃ bm₁ pm₁ bm₂ pm₂,
      processAllGames [c5GameA, c5GameB] [] [] = .ok (bm₁, pm₁) ∧
      processAllGames [c5GameB, c5GameA] [] [] = .ok (bm₂, pm₂) ∧
      (dget bm₁ "5").map batTotals = (dget bm₂ "5").map batTotals ∧
      (dget pm₁ "5p").map pitTotals = (dget pm₂ "5p").map pitTotals := by
  cases h₁ : processAllGames [c5GameA, c5GameB] [] [] with
  | error e =>
    have hok : exOk (processAllGames [c5GameA, c5GameB] [] []) = true := by
      with_unfolding_all rfl
    rw [h₁] at hok
    exact absurd hok (by simp [exOk])
  | ok r₁ =>
    obtain ⟨bm₁, pm₁⟩ := r₁
    cases h₂ : processAllGames [c5GameB, c5GameA] [] [] with
    | error e =>
      have hok : exOk (processAllGames [c5GameB, c5GameA] [] []) = true := by
        with_unfolding_all rfl
      rw [h₂] at hok
      exact absurd hok (by simp [exOk])
    | ok r₂ =>
      obtain ⟨bm₂, pm₂⟩ := r₂
      have hperm : ([c5GameA, c5GameB] : List GameRecord).Perm [c5GameB, c5GameA] :=
        List.Perm.swap c5GameB c5GameA []
      have happ := (aggregation_order_independent [c5GameA, c5GameB] [c5GameB, c5GameA]
        bm₁ pm₁ bm₂ pm₂ hperm h₁ h₂).2.2
      exact ⟨bm₁, pm₁, bm₂, pm₂, rfl, rfl, (happ "5").1, (happ "5p").2.2.1⟩
